import Mathlib

/-!
Verification development for the keyserver core (a Mailvelope-keyserver fork).

The embedding translates the service layer of src/service/public-key.js and the
validation helpers of src/service/util.js into Lean. External collaborators are
modelled as ports, following section 6 of the specification:

* the document store (MongoDB wrapper) is modelled as a list of key records with
  first-match query semantics, deleteMany removal semantics and updateOne patch
  semantics including the positional array operator;
* the OpenPGP adapter (src pgp.js) is modelled as a structure of opaque
  functions over armored blocks, since its behaviour is delegated to the
  external OpenPGP library; the two adapter methods that are absent from the
  sources in src (addSignature, getSignatureFromBase64) are modelled from the
  specification;
* the crypto md5 hash and the random nonce generator are modelled as abstract
  function parameters (node crypto is an external capability).

Numbers manipulated by the base64 helpers stay below 2 to the power 24, so the
JavaScript 32-bit bitwise operators coincide with the Nat bitwise operators.
-/

/- ===================== util.js : base64 codec ===================== -/

/-- Translation of b64ToUint6 from src/service/util.js: decode one base64
character code to a six bit value. -/
def b64ToUint6 (nChr : Nat) : Nat :=
  if 64 < nChr ∧ nChr < 91 then nChr - 65
  else if 96 < nChr ∧ nChr < 123 then nChr - 71
  else if 47 < nChr ∧ nChr < 58 then nChr + 4
  else if nChr = 43 then 62
  else if nChr = 47 then 63
  else 0

/-- Translation of uint6ToB64 from src/service/util.js: encode a six bit value
to a base64 character code. -/
def uint6ToB64 (nUint6 : Nat) : Nat :=
  if nUint6 < 26 then nUint6 + 65
  else if nUint6 < 52 then nUint6 + 71
  else if nUint6 < 62 then nUint6 - 4
  else if nUint6 = 62 then 43
  else if nUint6 = 63 then 47
  else 65

/-- Loop of base64EncArr from src/service/util.js. The string being built is
represented as the list of its character codes; nIdx is the current index into
the byte array and nUint24 the 24 bit accumulator. The flush condition mirrors
the source: the group is complete or the current byte is the last one. -/
def encLoop : List Nat → Nat → Nat → List Nat
  | [], _, _ => []
  | b :: rest, nIdx, nUint24 =>
    let acc := nUint24 ||| (b <<< ((16 >>> (nIdx % 3)) &&& 24))
    if nIdx % 3 = 2 ∨ rest.isEmpty then
      uint6ToB64 ((acc >>> 18) &&& 63) :: uint6ToB64 ((acc >>> 12) &&& 63) ::
        uint6ToB64 ((acc >>> 6) &&& 63) :: uint6ToB64 (acc &&& 63) ::
        encLoop rest (nIdx + 1) 0
    else
      encLoop rest (nIdx + 1) acc

/-- Translation of base64EncArr from src/service/util.js: encode a byte array
to base64 character codes, replacing the final filler characters by padding
(char code 61 is the equals sign). -/
def base64EncArr (aBytes : List Nat) : List Nat :=
  let eqLen := (3 - aBytes.length % 3) % 3
  let sB64Enc := encLoop aBytes 0 0
  if eqLen = 0 then sB64Enc
  else sB64Enc.take (sB64Enc.length - eqLen) ++ (if eqLen = 1 then [61] else [61, 61])

/-- Character class kept by the regex replace in base64DecToArr: A-Z, a-z, 0-9,
plus and slash. -/
def isB64Char (c : Nat) : Bool :=
  (65 ≤ c && c ≤ 90) || (97 ≤ c && c ≤ 122) || (48 ≤ c && c ≤ 57) || c == 43 || c == 47

/-- Inner write-out loop of base64DecToArr, unrolled: at most three bytes are
emitted from the 24 bit accumulator, truncated to the declared output length
(the Uint8Array bound nOutIdx < nOutLen in the source). -/
def decFlush (acc k : Nat) : List Nat :=
  ([(acc >>> ((16 >>> 0) &&& 24)) &&& 255,
    (acc >>> ((16 >>> 1) &&& 24)) &&& 255,
    (acc >>> ((16 >>> 2) &&& 24)) &&& 255]).take k

/-- Loop of base64DecToArr from src/service/util.js over the cleaned character
codes; nInIdx is the input index, nUint24 the accumulator, nOutIdx the output
index and nOutLen the allocated output length. -/
def decLoop : List Nat → Nat → Nat → Nat → Nat → List Nat
  | [], _, _, _, _ => []
  | c :: rest, nInIdx, nUint24, nOutIdx, nOutLen =>
    let acc := nUint24 ||| (b64ToUint6 c <<< (18 - 6 * (nInIdx % 4)))
    if nInIdx % 4 = 3 ∨ rest.isEmpty then
      decFlush acc (min 3 (nOutLen - nOutIdx)) ++
        decLoop rest (nInIdx + 1) 0 (nOutIdx + min 3 (nOutLen - nOutIdx)) nOutLen
    else
      decLoop rest (nInIdx + 1) acc nOutIdx nOutLen

/-- Translation of base64DecToArr from src/service/util.js: strip every
character outside the base64 alphabet, compute the output length and run the
decode loop. -/
def base64DecToArr (sBase64 : List Nat) : List Nat :=
  let sB64Enc := sBase64.filter isB64Char
  let nOutLen := (sB64Enc.length * 3 + 1) >>> 2
  decLoop sB64Enc 0 0 0 nOutLen

/-- Derived form used in the round trip proof: the four character codes encoding
one group of three input bytes (the accumulator exactly as built by encLoop). -/
def enc4 (b0 b1 b2 : Nat) : List Nat :=
  let acc := ((b0 <<< 16) ||| (b1 <<< 8)) ||| b2
  [uint6ToB64 ((acc >>> 18) &&& 63), uint6ToB64 ((acc >>> 12) &&& 63),
   uint6ToB64 ((acc >>> 6) &&& 63), uint6ToB64 (acc &&& 63)]

/-- Chunked restatement of base64EncArr, proved equal to it below: full three
byte groups yield four characters, a trailing byte yields two characters plus
two pads, two trailing bytes yield three characters plus one pad. -/
def chunkEnc : List Nat → List Nat
  | [] => []
  | [b0] => (enc4 b0 0 0).take 2 ++ [61, 61]
  | [b0, b1] => (enc4 b0 b1 0).take 3 ++ [61]
  | b0 :: b1 :: b2 :: rest => enc4 b0 b1 b2 ++ chunkEnc rest

/-- The base64 payload of chunkEnc with the padding stripped, which is what the
filter inside base64DecToArr retains. -/
def rawChunks : List Nat → List Nat
  | [] => []
  | [b0] => (enc4 b0 0 0).take 2
  | [b0, b1] => (enc4 b0 b1 0).take 3
  | b0 :: b1 :: b2 :: rest => enc4 b0 b1 b2 ++ rawChunks rest

/- ===================== data model ===================== -/

/-- Armored key blocks are opaque text manipulated only through the OpenPGP
adapter. -/
abbrev Armored := String

/-- Error raised by util.throw in src/service/util.js: an http status code and
a message. -/
structure PKErr where
  status : Nat
  message : String
deriving DecidableEq, Repr

/-- ASCII lowercase of one character, the effect of the JavaScript
toLowerCase on the ASCII identifiers handled by the service (defined by
character arithmetic so that evaluation witnesses reduce in the kernel). -/
def charToLower (c : Char) : Char :=
  if 65 ≤ c.toNat ∧ c.toNat ≤ 90 then Char.ofNat (c.toNat + 32) else c

/-- JavaScript toLowerCase over a whole string. -/
def toLowerCase (s : String) : String := String.mk (s.data.map charToLower)

/-- Translation of util.normalizeEmail: lowercase the address (the source
returns a falsy input unchanged; the empty string is also unchanged by
toLowerCase, so totalising over String is faithful). -/
def normalizeEmail (email : String) : String := toLowerCase email

/-- User ID record as stored inside a key record (see the database document
comment in src/service/public-key.js). The fields status and notify are
transient parse artifacts; absent JavaScript fields are modelled as none. -/
structure UserIdRec where
  name : String
  email : String
  verified : Bool
  nonce : Option String := none
  publicKeyArmored : Option Armored := none
  status : Option Nat := none
  notify : Option Bool := none
deriving DecidableEq, Repr

/-- The user reference carried by a pending signature: the userid string of the
signed user, or a user attribute (both optional, mirroring the object built in
filterKeyBySignatures of pgp.js). Attribute packets are opaque. -/
structure SigUser where
  userId : Option String
  userAttribute : Option String
deriving DecidableEq, Repr

/-- One pending third party certification: the signed user and the signature
packet. The packet is opaque; equality on it models the byte equality used by
the source. Once stored it is the base64 text hashed by verifySignatures. -/
structure PendingSig where
  user : SigUser
  signature : String
deriving DecidableEq, Repr

/-- Pending signatures batch attached to a key record: a shared confirmation
nonce and the list of pending signatures. -/
structure PendingSigs where
  nonce : String
  sigs : List PendingSig
deriving DecidableEq, Repr

/-- Key record document persisted in the publickey collection. The MongoDB
document id is modelled as a plain number. -/
structure KeyRecord where
  _id : Nat := 0
  keyId : String
  fingerprint : String
  userIds : List UserIdRec
  created : Int
  uploaded : Int
  algorithm : String
  keySize : Nat
  publicKeyArmored : Option Armored
  pendingSignatures : Option PendingSigs := none
deriving DecidableEq, Repr

/-- The document store: the publickey collection in insertion order. Queries
return the first match, removals delete every match, updates patch the first
match. Modelled from the spec: the MongoDB wrapper itself is an external
collaborator (spec section 6, Storage Port). -/
abbrev DB := List KeyRecord

/-- Primary user object returned by getPrimaryUser of the adapter (the nested
user.userId object with name and email). -/
structure PrimaryUser where
  name : String
  email : String
deriving DecidableEq, Repr

/-- Decoded signature packet data used by getPendingSignatures: the issuer
fingerprint already rendered as hex text and the creation date already
rendered by toDateString. Modelled from the spec: getSignatureFromBase64 is
absent from the sources under src. -/
structure SigPacketInfo where
  issuerFingerprint : String
  createdDateString : String
deriving DecidableEq, Repr

/-- User ID skeleton produced by parseKey in pgp.js: per user status code,
name, and normalized email; the caller adds verified false. -/
structure ParsedUserId where
  status : Nat
  name : String
  email : String
deriving DecidableEq, Repr

/-- Key record skeleton returned by parseKey in pgp.js. -/
structure ParsedKey where
  keyId : String
  fingerprint : String
  userIds : List ParsedUserId
  created : Int
  uploaded : Int
  algorithm : String
  keySize : Nat
  publicKeyArmored : Armored
deriving DecidableEq, Repr

/-- The OpenPGP adapter (pgp.js) as an abstract port: each operation of the
wrapper is an opaque function on armored blocks, since the real computation is
delegated to the external OpenPGP library. addSignature and
getSignatureFromBase64 are modelled from the spec (section 4.1): they are
called by public-key.js but their definitions are not among the sources under
src. -/
structure PGPAdapter where
  parseKey : Armored → Except PKErr ParsedKey
  filterKeyByUserIds : List UserIdRec → Armored → Armored
  filterKeyBySignatures : Armored → Armored → Armored × List PendingSig
  updateKey : Armored → Armored → Armored
  getPrimaryUser : Armored → PrimaryUser
  addSignature : Armored → PendingSig → Armored
  getSignatureFromBase64 : String → SigPacketInfo
  removeUserId : String → Armored → Armored

/-- Recognised configuration: purge horizon in days, the organisation
restriction switch, and the organisation email predicate (the configured
restriction regex behind util.isFromOrganisation). -/
structure Config where
  purgeTimeInDays : Nat
  restrictUserOrigin : Bool
  restriction : String → Bool

/-- One message handed to the mailer port: template identifier, recipient
email, key id and the nonce placed in the link (none for templates without a
nonce). -/
structure Mail where
  template : String
  email : String
  keyId : String
  nonce : Option String
deriving DecidableEq, Repr

/-- Key status enum value accepted by put (openpgp.enums.keyStatus.valid). -/
def KEY_STATUS_VALID : Nat := 3

/- ===================== storage helpers ===================== -/

/-- Patch the first record matching the selector (updateOne semantics of the
storage port). -/
def updateFirst (p : KeyRecord → Bool) (f : KeyRecord → KeyRecord) : DB → DB
  | [] => []
  | r :: rest => if p r then f r :: rest else r :: updateFirst p f rest

/-- Patch the first array element matching the selector condition (the MongoDB
positional operator userIds.$). -/
def updateFirstUid (p : UserIdRec → Bool) (f : UserIdRec → UserIdRec) :
    List UserIdRec → List UserIdRec
  | [] => []
  | u :: rest => if p u then f u :: rest else u :: updateFirstUid p f rest

/- ===================== public-key.js : service ===================== -/

namespace PublicKey

/-- Selector of the purge in purgeOldUnverified: no user ID verified (the
mongo $ne true array condition holds when no element equals true) and
uploaded before the horizon. -/
def purgeSelector (cfg : Config) (now : Int) (r : KeyRecord) : Bool :=
  (!r.userIds.any (fun u => u.verified)) && decide (r.uploaded < now - (cfg.purgeTimeInDays : Int))

/-- Translation of purgeOldUnverified: remove every record matching the purge
selector. The boolean purgeOk models whether the storage remove call resolves;
on rejection the error propagates to the caller, since the source awaits the
call with no catch. -/
def purgeOldUnverified (cfg : Config) (now : Int) (purgeOk : Bool) (db : DB) :
    Except PKErr DB :=
  if purgeOk then .ok (db.filter (fun r => !purgeSelector cfg now r))
  else .error ⟨500, "storage remove rejected"⟩

/-- Match predicate of getVerified: any of the three selectors of the $or
query holds for the record. -/
def getVerifiedMatch (userIds : Option (List String)) (fingerprint keyId : Option String)
    (r : KeyRecord) : Bool :=
  (match fingerprint with
   | some fp => r.fingerprint == toLowerCase fp && r.userIds.any (fun u => u.verified)
   | none => false) ||
  (match keyId with
   | some kid => r.keyId == toLowerCase kid && r.userIds.any (fun u => u.verified)
   | none => false) ||
  (match userIds with
   | some emails =>
     emails.any (fun e => r.userIds.any (fun u => u.email == normalizeEmail e && u.verified))
   | none => false)

/-- Translation of getVerified: first record of the collection matching any of
the selectors. -/
def getVerified (db : DB) (userIds : Option (List String)) (fingerprint keyId : Option String) :
    Option KeyRecord :=
  db.find? (getVerifiedMatch userIds fingerprint keyId)

/-- User ID as exposed by get: name, email and verified only. -/
structure UserIdOut where
  name : String
  email : String
  verified : Bool
deriving DecidableEq, Repr

/-- Pending signatures batch as exposed by get: the nonce is deleted. -/
structure PendingSigsOut where
  sigs : List PendingSig
deriving DecidableEq, Repr

/-- Key record as exposed by get: every stored field except the document id,
with reduced user IDs and the pending batch nonce removed. -/
structure KeyRecordOut where
  keyId : String
  fingerprint : String
  userIds : List UserIdOut
  created : Int
  uploaded : Int
  algorithm : String
  keySize : Nat
  publicKeyArmored : Option Armored
  pendingSignatures : Option PendingSigsOut
deriving DecidableEq, Repr

/-- Translation of get: look up the verified record, fail 404 when absent, and
strip the internal fields from the returned document. -/
def get (db : DB) (fingerprint keyId email : Option String) : Except PKErr KeyRecordOut :=
  let userIds := email.map (fun e => [e])
  match getVerified db userIds fingerprint keyId with
  | none => .error ⟨404, "key_not_found"⟩
  | some key => .ok {
      keyId := key.keyId
      fingerprint := key.fingerprint
      userIds := key.userIds.map (fun uid =>
        { name := uid.name, email := uid.email, verified := uid.verified })
      created := key.created
      uploaded := key.uploaded
      algorithm := key.algorithm
      keySize := key.keySize
      publicKeyArmored := key.publicKeyArmored
      pendingSignatures := key.pendingSignatures.map (fun p => { sigs := p.sigs }) }

/-- Conversion of a parseKey user skeleton to the stored user ID object (the
literal pushed by parseUserIds with verified false). -/
def parsedToUserId (p : ParsedUserId) : UserIdRec :=
  { name := p.name, email := p.email, verified := false, nonce := none,
    publicKeyArmored := none, status := some p.status, notify := none }

/-- Translation of addKeyArmored: attach to every given user ID its shadow
armored block filtered to that user ID only, and set the notify flag. -/
def addKeyArmored (pgp : PGPAdapter) (userIds : List UserIdRec) (publicKeyArmored : Armored) :
    List UserIdRec :=
  userIds.map (fun uid =>
    { uid with publicKeyArmored := some (pgp.filterKeyByUserIds [uid] publicKeyArmored),
               notify := some true })

/-- Translation of includeEmail: some user of the list carries the same
email. -/
def includeEmail (users : List UserIdRec) (user : UserIdRec) : Bool :=
  users.any (fun u => u.email == user.email)

/-- Translation of mergeUsers: keep the existing verified users, take the new
valid users whose email is not already verified (with shadow block and notify
flag), keep the existing unverified users not resubmitted, in the order
valid, pending, verified. -/
def mergeUsers (pgp : PGPAdapter) (existingUsers newUsers : List UserIdRec)
    (publicKeyArmored : Armored) : List UserIdRec :=
  let verifiedUsers := existingUsers.filter (fun u => u.verified)
  let validUsers := newUsers.filter (fun uid =>
    uid.status == some KEY_STATUS_VALID && !includeEmail verifiedUsers uid)
  let pendingUsers := existingUsers.filter (fun uid =>
    !uid.verified && !includeEmail validUsers uid)
  addKeyArmored pgp validUsers publicKeyArmored ++ pendingUsers ++ verifiedUsers

/-- Loop of sendVerifyEmail: every user ID with the notify flag receives a
fresh nonce (the next value of the supply) and one verifyKey mail; supply
consumption is threaded through ctr. -/
def sendVerifyEmailLoop (supply : Nat → String) (keyId : String) :
    List UserIdRec → Nat → List UserIdRec × List Mail × Nat
  | [], ctr => ([], [], ctr)
  | uid :: rest, ctr =>
    if uid.notify == some true then
      let nonce := supply ctr
      let r := sendVerifyEmailLoop supply keyId rest (ctr + 1)
      ({ uid with nonce := some nonce } :: r.1,
       { template := "verifyKey", email := uid.email, keyId := keyId,
         nonce := some nonce } :: r.2.1,
       r.2.2)
    else
      let r := sendVerifyEmailLoop supply keyId rest ctr
      (uid :: r.1, r.2.1, r.2.2)

/-- Loop of sendVerifyOrganisationEmail: like sendVerifyEmailLoop but only for
user IDs whose email matches the organisation predicate. -/
def sendVerifyOrganisationEmailLoop (cfg : Config) (supply : Nat → String) (keyId : String) :
    List UserIdRec → Nat → List UserIdRec × List Mail × Nat
  | [], ctr => ([], [], ctr)
  | uid :: rest, ctr =>
    if uid.notify == some true && cfg.restriction uid.email then
      let nonce := supply ctr
      let r := sendVerifyOrganisationEmailLoop cfg supply keyId rest (ctr + 1)
      ({ uid with nonce := some nonce } :: r.1,
       { template := "verifyKey", email := uid.email, keyId := keyId,
         nonce := some nonce } :: r.2.1,
       r.2.2)
    else
      let r := sendVerifyOrganisationEmailLoop cfg supply keyId rest ctr
      (uid :: r.1, r.2.1, r.2.2)

/-- Strip of the transient fields done by persistKey before the insert. -/
def stripStatusNotify (uids : List UserIdRec) : List UserIdRec :=
  uids.map (fun uid => { uid with status := none, notify := none })

/-- Translation of persistKey: delete every record with the same key id, strip
the transient user fields, insert the new record (the insertedCount check is
modelled as always succeeding). -/
def persistKey (db : DB) (key : KeyRecord) : DB :=
  db.filter (fun r => !(r.keyId == key.keyId)) ++
    [{ key with userIds := stripStatusNotify key.userIds }]

/-- Strip of the transient fields done by persistKeyOrganisation: only user
IDs with an organisation email are cleaned. -/
def stripStatusNotifyOrganisation (cfg : Config) (uids : List UserIdRec) : List UserIdRec :=
  uids.map (fun uid =>
    if cfg.restriction uid.email then { uid with status := none, notify := none } else uid)

/-- Translation of persistKeyOrganisation. -/
def persistKeyOrganisation (cfg : Config) (db : DB) (key : KeyRecord) : DB :=
  db.filter (fun r => !(r.keyId == key.keyId)) ++
    [{ key with userIds := stripStatusNotifyOrganisation cfg key.userIds }]

/-- Translation of sendNewSigsEmail: when a pending batch with at least one
signature is attached, mail the primary user of the armored block one
checkNewSigs message carrying the batch nonce. A null armored block would make
the library parse fail in the source, modelled as a 500 error. -/
def sendNewSigsEmail (pgp : PGPAdapter) (key : KeyRecord) : Except PKErr (List Mail) :=
  match key.pendingSignatures with
  | some p =>
    if p.sigs.length ≠ 0 then
      match key.publicKeyArmored with
      | some a =>
        .ok [{ template := "checkNewSigs", email := (pgp.getPrimaryUser a).email,
               keyId := key.keyId, nonce := some p.nonce }]
      | none => .error ⟨500, "Failed to parse PGP key"⟩
    else .ok []
  | none => .ok []

/-- Result of put: the new collection state, the mails handed to the mailer in
order, and the state of the nonce supply. -/
structure PutOut where
  db : DB
  mails : List Mail
  ctr : Nat
deriving Repr, DecidableEq

/-- Translation of put from src/service/public-key.js, following the source
order: normalize the submitted emails, run the lazy purge (its rejection
propagates), parse the key, filter to the submitted user IDs, then either merge
into the existing verified record with the same key id (case B) or store a new
record with no armored block and challenge mails (case A). -/
def put (pgp : PGPAdapter) (cfg : Config) (supply : Nat → String) (purgeOk : Bool)
    (now : Int) (emails : List String) (publicKeyArmored : Armored) (db : DB) (ctr : Nat) :
    Except PKErr PutOut := do
  let emails := emails.map normalizeEmail
  let db ← purgeOldUnverified cfg now purgeOk db
  let parsed ← pgp.parseKey publicKeyArmored
  let userIds0 := parsed.userIds.map parsedToUserId
  let userIds1 ←
    if emails.length ≠ 0 then
      let kept := userIds0.filter (fun uid => emails.contains uid.email)
      if kept.length ≠ emails.length then
        Except.error (⟨400, "Provided email address does not match a valid user ID of the key"⟩ : PKErr)
      else Except.ok kept
    else Except.ok userIds0
  match getVerified db none none (some parsed.keyId) with
  | some verified => do
    let mergedUsers := mergeUsers pgp verified.userIds userIds1 parsed.publicKeyArmored
    let filtered0 := pgp.filterKeyByUserIds (mergedUsers.filter (fun u => u.verified))
      parsed.publicKeyArmored
    let va ← match verified.publicKeyArmored with
      | some va => Except.ok va
      | none => Except.error (⟨500, "Failed to parse PGP key"⟩ : PKErr)
    let fs := pgp.filterKeyBySignatures filtered0 va
    let newArmored := pgp.updateKey va fs.1
    let pc : Option PendingSigs × Nat :=
      if fs.2.length ≠ 0 then
        match verified.pendingSignatures with
        | none => (some { sigs := fs.2, nonce := supply ctr }, ctr + 1)
        | some vp =>
          (some { nonce := vp.nonce,
                  sigs := vp.sigs ++ fs.2.filter (fun s =>
                    !vp.sigs.any (fun p => p.signature == s.signature)) }, ctr)
      else (none, ctr)
    let sv := sendVerifyEmailLoop supply parsed.keyId mergedUsers pc.2
    let key : KeyRecord := {
      _id := 0, keyId := parsed.keyId, fingerprint := parsed.fingerprint,
      userIds := sv.1, created := parsed.created, uploaded := parsed.uploaded,
      algorithm := parsed.algorithm, keySize := parsed.keySize,
      publicKeyArmored := some newArmored, pendingSignatures := pc.1 }
    let mails2 ← sendNewSigsEmail pgp key
    Except.ok { db := persistKey db key, mails := sv.2.1 ++ mails2, ctr := sv.2.2 }
  | none => do
    let valid := userIds1.filter (fun uid => uid.status == some KEY_STATUS_VALID)
    if valid.length = 0 then
      Except.error (⟨400, "Invalid PGP key: no valid user IDs found"⟩ : PKErr)
    else
      let withShadow := addKeyArmored pgp valid parsed.publicKeyArmored
      if cfg.restrictUserOrigin then
        let sv := sendVerifyOrganisationEmailLoop cfg supply parsed.keyId withShadow ctr
        let key : KeyRecord := {
          _id := 0, keyId := parsed.keyId, fingerprint := parsed.fingerprint,
          userIds := sv.1, created := parsed.created, uploaded := parsed.uploaded,
          algorithm := parsed.algorithm, keySize := parsed.keySize,
          publicKeyArmored := none, pendingSignatures := none }
        Except.ok { db := persistKeyOrganisation cfg db key, mails := sv.2.1, ctr := sv.2.2 }
      else
        let sv := sendVerifyEmailLoop supply parsed.keyId withShadow ctr
        let key : KeyRecord := {
          _id := 0, keyId := parsed.keyId, fingerprint := parsed.fingerprint,
          userIds := sv.1, created := parsed.created, uploaded := parsed.uploaded,
          algorithm := parsed.algorithm, keySize := parsed.keySize,
          publicKeyArmored := none, pendingSignatures := none }
        Except.ok { db := persistKey db key, mails := sv.2.1, ctr := sv.2.2 }

/-- Result of verify: new collection state, re-dispatched challenge mails, the
supply state and the verified email. -/
structure VerifyOut where
  db : DB
  mails : List Mail
  ctr : Nat
  email : String
deriving Repr, DecidableEq

/-- Selector of verify and verifyRemove: key id equality and some user ID
carrying the nonce. -/
def verifyQueryMatch (keyId nonce : String) (r : KeyRecord) : Bool :=
  r.keyId == keyId && r.userIds.any (fun u => u.nonce == some nonce)

/-- Translation of verify from src/service/public-key.js: locate the record by
key id and nonce (404 when absent), re-send challenges to every user ID still
flagged notify and re-persist the record, delete other records claiming the
same email, merge the shadow armored block of the target user ID into the
record armored block, then flag the target as verified through a positional
update. A missing target after the in-memory mutations, or a null shadow block
fed to the library, surfaces as a 500 error as in the source. -/
def verify (pgp : PGPAdapter) (supply : Nat → String) (keyId nonce : String)
    (db : DB) (ctr : Nat) : Except PKErr VerifyOut := do
  match db.find? (verifyQueryMatch keyId nonce) with
  | none => .error ⟨404, "User ID not found"⟩
  | some key => do
    let sv := sendVerifyEmailLoop supply key.keyId key.userIds ctr
    let key1 : KeyRecord := { key with userIds := stripStatusNotify sv.1 }
    let db1 := persistKey db { key with userIds := sv.1 }
    let target ← match key1.userIds.find? (fun u => u.nonce == some nonce) with
      | some t => Except.ok t
      | none => Except.error (⟨500, "TypeError"⟩ : PKErr)
    let db2 := db1.filter (fun r =>
      !(!(r.keyId == key1.keyId) && r.userIds.any (fun u => u.email == target.email)))
    let newArmored ← match key1.publicKeyArmored with
      | some p =>
        match target.publicKeyArmored with
        | some s => Except.ok (some (pgp.updateKey p s))
        | none => Except.error (⟨500, "Failed to parse PGP key"⟩ : PKErr)
      | none => Except.ok target.publicKeyArmored
    let patchUid := fun (u : UserIdRec) =>
      { u with verified := true, nonce := none, publicKeyArmored := none }
    let patchRec := fun (r : KeyRecord) =>
      { r with
          publicKeyArmored := newArmored
          userIds := updateFirstUid (fun u => u.nonce == some nonce) patchUid r.userIds }
    let db3 := updateFirst (verifyQueryMatch keyId nonce) patchRec db2
    Except.ok { db := db3, mails := sv.2.1, ctr := sv.2.2, email := target.email }

/-- Result of verifySignatures: new collection state and the primary email. -/
structure VerifySigsOut where
  db : DB
  email : String
deriving Repr, DecidableEq

/-- Selector of verifySignatures: key id equality and the pending batch
carrying the nonce. -/
def vsQueryMatch (keyId nonce : String) (r : KeyRecord) : Bool :=
  r.keyId == keyId && (match r.pendingSignatures with
                       | some p => p.nonce == nonce
                       | none => false)

/-- Loop body of verifySignatures, exactly as in the source: when the md5 hex
hash of the stored base64 signature is among the submitted hashes, the
signature is re-attached to the record armored block (not to the accumulator)
and the accumulator is overwritten with the merge of the record armored block
into that one-signature block. -/
def vsStep (pgp : PGPAdapter) (md5 : String → String) (sigs : List String)
    (keyArmored : Option Armored) (acc : Option Armored) (ps : PendingSig) :
    Except PKErr (Option Armored) :=
  if sigs.contains (md5 ps.signature) then
    match keyArmored with
    | some orig => Except.ok (some (pgp.updateKey orig (pgp.addSignature orig ps)))
    | none => Except.error (⟨500, "Failed to parse PGP key"⟩ : PKErr)
  else Except.ok acc

/-- Translation of verifySignatures from src/service/public-key.js: locate the
record by key id and pending batch nonce (404 when absent), run the loop over
every pending signature, clear the batch, persist, and return the primary
email of the resulting armored block. -/
def verifySignatures (pgp : PGPAdapter) (md5 : String → String) (keyId nonce : String)
    (sigs : List String) (db : DB) : Except PKErr VerifySigsOut := do
  match db.find? (vsQueryMatch keyId nonce) with
  | none => .error ⟨404, "Signatures not found on key"⟩
  | some key => do
    let pending ← match key.pendingSignatures with
      | some p => Except.ok p
      | none => Except.error (⟨500, "TypeError"⟩ : PKErr)
    let finalArmored ← pending.sigs.foldlM (vsStep pgp md5 sigs key.publicKeyArmored)
      key.publicKeyArmored
    let db1 := updateFirst (vsQueryMatch keyId nonce)
      (fun r => { r with publicKeyArmored := finalArmored, pendingSignatures := none }) db
    let email ← match finalArmored with
      | some a => Except.ok (pgp.getPrimaryUser a).email
      | none => Except.error (⟨500, "Failed to parse PGP key"⟩ : PKErr)
    Except.ok { db := db1, email := email }

/-- One row of the map returned by getPendingSignatures: issuer fingerprint,
creation date text, resolved issuer primary user (none models the unknown
identity placeholder string) and the md5 selection hash. -/
structure PendingSigEntry where
  issuerFingerprint : String
  created : String
  userId : Option PrimaryUser
  hash : String
deriving DecidableEq, Repr

/-- Insertion-ordered map push used to translate the JavaScript Map in
getPendingSignatures: append the value to the bucket of the key, creating the
bucket at the end when absent. -/
def mapPush (k : Option String) (v : PendingSigEntry) :
    List (Option String × List PendingSigEntry) →
    List (Option String × List PendingSigEntry)
  | [] => [(k, [v])]
  | (k1, vs) :: rest =>
    if k1 == k then (k1, vs ++ [v]) :: rest else (k1, vs) :: mapPush k v rest

/-- Loop body of getPendingSignatures, one pending signature at a time: compute
the md5 hex hash of the stored base64 signature, decode the packet, resolve
the issuer through getVerified by fingerprint (a null armored block on the
issuer record would make the library parse fail, modelled as a 500 error), and
push the row into the bucket of the signed userid string. -/
def gpsStep (pgp : PGPAdapter) (md5 : String → String) (db : DB)
    (signatures : List (Option String × List PendingSigEntry)) (ps : PendingSig) :
    Except PKErr (List (Option String × List PendingSigEntry)) := do
  let hash := md5 ps.signature
  let packet := pgp.getSignatureFromBase64 ps.signature
  let issuerUID ← match getVerified db none (some packet.issuerFingerprint) none with
    | some v =>
      match v.publicKeyArmored with
      | some a => Except.ok (some (pgp.getPrimaryUser a))
      | none => Except.error (⟨500, "Failed to parse PGP key"⟩ : PKErr)
    | none => Except.ok none
  Except.ok (mapPush ps.user.userId
    { issuerFingerprint := packet.issuerFingerprint,
      created := packet.createdDateString,
      userId := issuerUID, hash := hash } signatures)

/-- Translation of getPendingSignatures from src/service/public-key.js: locate
the verified record (404), require a pending batch (404) with the matching
nonce (403), then for every pending signature compute the md5 hex hash of the
stored base64 signature, decode the packet, resolve the issuer and group the
rows by signed userid string. -/
def getPendingSignatures (pgp : PGPAdapter) (md5 : String → String) (db : DB)
    (fingerprint keyId email : Option String) (nonce : String) :
    Except PKErr (List (Option String × List PendingSigEntry)) := do
  let userIds := email.map (fun e => [e])
  match getVerified db userIds fingerprint keyId with
  | none => .error ⟨404, "key_not_found"⟩
  | some key =>
    match key.pendingSignatures with
    | none => .error ⟨404, "No pending signatures"⟩
    | some pending =>
      if pending.nonce ≠ nonce then .error ⟨403, "Invalid nonce"⟩
      else pending.sigs.foldlM (gpsStep pgp md5 db) []

/-- Return value of flagForRemove: the flagged user IDs and the key id. -/
structure FlagOut where
  userIds : List UserIdRec
  keyId : String
deriving DecidableEq, Repr

/-- Loop of the key id branch of flagForRemove: every user ID of the record
receives a fresh nonce through a positional update whose selector is the email
alone (no key id), hence targeting the first record of the collection carrying
that email, as in the source. flagEmailNonce is that single positional update:
on the first record carrying the email, the first user ID with the email gets
the nonce. -/
def flagEmailNonce (e nonce : String) (db : DB) : DB :=
  updateFirst (fun r => r.userIds.any (fun u => u.email == e)) (fun r =>
    { r with
        userIds := updateFirstUid (fun u => u.email == e)
          (fun u => { u with nonce := some nonce }) r.userIds }) db

/-- Loop of the key id branch of flagForRemove (continued): one positional
update per user ID, threading the collection state and the supply. -/
def flagAllLoop (supply : Nat → String) :
    List UserIdRec → DB → Nat → List UserIdRec × DB × Nat
  | [], db, ctr => ([], db, ctr)
  | uid :: rest, db, ctr =>
    let nonce := supply ctr
    let db1 := flagEmailNonce uid.email nonce db
    let rec1 := flagAllLoop supply rest db1 (ctr + 1)
    ({ uid with nonce := some nonce } :: rec1.1, rec1.2.1, rec1.2.2)

/-- Translation of flagForRemove: when an email is given, flag only the first
user ID with that email on the first record carrying it; otherwise, when a key
id is given, flag every user ID of that record. Returns none when no record
matches (or when neither argument is given, as in the source fallthrough). -/
def flagForRemove (supply : Nat → String) (keyId : Option String) (email : Option String)
    (db : DB) (ctr : Nat) : Option (FlagOut × DB × Nat) :=
  let email := email.map normalizeEmail
  match email with
  | some e =>
    match db.find? (fun r => r.userIds.any (fun u => u.email == e)) with
    | none => none
    | some key =>
      let nonce := supply ctr
      let db1 := flagEmailNonce e nonce db
      match key.userIds.find? (fun u => u.email == e) with
      | some uid => some ({ userIds := [{ uid with nonce := some nonce }], keyId := key.keyId },
                          db1, ctr + 1)
      | none => none
  | none =>
    match keyId with
    | some kid =>
      match db.find? (fun r => r.keyId == kid) with
      | none => none
      | some key =>
        let fl := flagAllLoop supply key.userIds db ctr
        some ({ userIds := fl.1, keyId := key.keyId }, fl.2.1, fl.2.2)
    | none => none

/-- Result of requestRemove: new collection state, removal mails, supply
state. -/
structure RequestRemoveOut where
  db : DB
  mails : List Mail
  ctr : Nat
deriving Repr, DecidableEq

/-- Translation of requestRemove: flag the user IDs for removal (404 when no
record matches) and send one verifyRemove mail per flagged user ID. -/
def requestRemove (supply : Nat → String) (keyId email : Option String) (db : DB) (ctr : Nat) :
    Except PKErr RequestRemoveOut :=
  match flagForRemove supply keyId email db ctr with
  | none => .error ⟨404, "User ID not found"⟩
  | some fl =>
    .ok { db := fl.2.1,
          mails := fl.1.userIds.map (fun uid =>
            { template := "verifyRemove", email := uid.email, keyId := fl.1.keyId,
              nonce := uid.nonce }),
          ctr := fl.2.2 }

/-- Result of verifyRemove: new collection state and the removed user ID. -/
structure VerifyRemoveOut where
  db : DB
  removed : UserIdRec
deriving Repr, DecidableEq

/-- Translation of verifyRemove from src/service/public-key.js: locate the
record by key id and nonce (404 when absent). A single-user record is deleted
whole. Otherwise locate the target user ID; when it is verified, strip its
email from the armored block when more than one user ID is verified, or null
the armored block when it was the last verified one; then drop the user ID
from the list and replace the stored record. -/
def verifyRemove (pgp : PGPAdapter) (keyId nonce : String) (db : DB) :
    Except PKErr VerifyRemoveOut := do
  match db.find? (verifyQueryMatch keyId nonce) with
  | none => .error ⟨404, "User ID not found"⟩
  | some flagged =>
    if flagged.userIds.length == 1 then
      match flagged.userIds[0]? with
      | some u => Except.ok { db := db.filter (fun r => !(r.keyId == keyId)), removed := u }
      | none => Except.error (⟨500, "TypeError"⟩ : PKErr)
    else
      let rmIdx := flagged.userIds.findIdx (fun u => u.nonce == some nonce)
      match flagged.userIds[rmIdx]? with
      | none => Except.error (⟨500, "TypeError"⟩ : PKErr)
      | some rmUserId => do
        let newArmored ←
          if rmUserId.verified then
            if (flagged.userIds.filter (fun u => u.verified)).length > 1 then
              match flagged.publicKeyArmored with
              | some a => Except.ok (some (pgp.removeUserId rmUserId.email a))
              | none => Except.error (⟨500, "Failed to parse PGP key"⟩ : PKErr)
            else Except.ok none
          else Except.ok flagged.publicKeyArmored
        let flagged1 : KeyRecord :=
          { flagged with publicKeyArmored := newArmored,
                         userIds := flagged.userIds.eraseIdx rmIdx }
        Except.ok { db := updateFirst (fun r => r.keyId == keyId) (fun _ => flagged1) db,
                    removed := rmUserId }

end PublicKey

/- ===================== proof-side definitions ===================== -/

namespace PublicKey

/-- Cleanliness of one stored user ID: a verified user ID carries no nonce, no
shadow armored block, and no live notify flag. The notify conjunct strengthens
the specification invariant just enough to make it inductive: challenge
re-dispatch assigns fresh nonces exactly to notify-flagged user IDs. -/
def uidClean (u : UserIdRec) : Bool :=
  !u.verified || (u.nonce == none && u.publicKeyArmored == none && u.notify != some true)

/-- Cleanliness of the whole stored collection. -/
def dbClean (db : DB) : Bool :=
  db.all (fun r => r.userIds.all uidClean)

/-- Hex nonce shape produced by util.random: 32 lowercase hex characters. -/
def isHex32 (s : String) : Bool :=
  s.length == 32 && s.toList.all (fun c => c.isDigit || (97 ≤ c.toNat && c.toNat ≤ 102))

/-- All selection hashes listed by a getPendingSignatures result, in bucket
order. -/
def listedHashes (out : List (Option String × List PendingSigEntry)) : List String :=
  out.flatMap (fun kv => kv.2.map (fun e => e.hash))

end PublicKey

/-- Concrete OpenPGP adapter instance used by evaluation witnesses: armored
blocks are tagged strings, so every adapter call leaves a visible trace in the
result. -/
def mockPGP : PGPAdapter where
  parseKey := fun a => Except.ok {
    keyId := "aabbccddeeff0011",
    fingerprint := "1234567890123456789012341234567890123456",
    userIds := [{ status := 3, name := "Alice", email := "alice@example.org" }],
    created := 0, uploaded := 100, algorithm := "rsa_encrypt_sign", keySize := 2048,
    publicKeyArmored := a }
  filterKeyByUserIds := fun uids a =>
    "uids:" ++ String.intercalate "," (uids.map (fun u => u.email)) ++ ";" ++ a
  filterKeyBySignatures := fun src _ => (src, [])
  updateKey := fun src dst => "upd(" ++ src ++ ";" ++ dst ++ ")"
  getPrimaryUser := fun _ => { name := "Alice", email := "alice@example.org" }
  addSignature := fun a ps => a ++ "+sig:" ++ ps.signature
  getSignatureFromBase64 := fun s => { issuerFingerprint := "fp:" ++ s, createdDateString := "d" }
  removeUserId := fun e a => a ++ "-uid:" ++ e

/-- Variant of mockPGP whose signature diff reports one new third party
signature, used to exercise the pending batch logic of put. -/
def mockPGPSigs : PGPAdapter :=
  { mockPGP with filterKeyBySignatures := fun src _ =>
      (src, [{ user := { userId := some "Alice <alice@example.org>", userAttribute := none },
               signature := "SIGA" }]) }

/-- Fixture builder for evaluation witnesses: a user ID record with the given
email, verified flag, nonce and shadow block. -/
def mkUid (email : String) (verified : Bool) (nonce : Option String)
    (shadow : Option Armored) : UserIdRec :=
  { name := "User", email := email, verified := verified, nonce := nonce,
    publicKeyArmored := shadow, status := none, notify := none }

/-- Fixture builder for evaluation witnesses: a key record with the given key
id, user IDs, armored block and pending batch. -/
def mkRec (keyId : String) (uids : List UserIdRec) (armored : Option Armored)
    (pending : Option PendingSigs) : KeyRecord :=
  { _id := 0, keyId := keyId, fingerprint := "fpr-" ++ keyId, userIds := uids,
    created := 0, uploaded := 50, algorithm := "rsa_encrypt_sign", keySize := 2048,
    publicKeyArmored := armored, pendingSignatures := pending }

/-- Fixture for evaluation witnesses: the one new third party signature
reported by mockPGPSigs. -/
def sigA : PendingSig :=
  { user := { userId := some "Alice <alice@example.org>", userAttribute := none },
    signature := "SIGA" }

/-- Fixture collection for the pending batch witness: one stored verified
record. -/
def c4db : DB :=
  [mkRec "aabbccddeeff0011" [mkUid "alice@example.org" true none none] (some "PREV") none]

/-- The parse result of mockPGP on any armored block. -/
def c4parsed : ParsedKey :=
  { keyId := "aabbccddeeff0011",
    fingerprint := "1234567890123456789012341234567890123456",
    userIds := [{ status := 3, name := "Alice", email := "alice@example.org" }],
    created := 0, uploaded := 100, algorithm := "rsa_encrypt_sign", keySize := 2048,
    publicKeyArmored := "ARM" }

/-- The record persisted by put in the pending batch witness run. -/
def c4rec : KeyRecord :=
  { _id := 0, keyId := "aabbccddeeff0011",
    fingerprint := "1234567890123456789012341234567890123456",
    userIds := [{ name := "User", email := "alice@example.org", verified := true,
                  nonce := none, publicKeyArmored := none, status := none,
                  notify := none }],
    created := 0, uploaded := 100, algorithm := "rsa_encrypt_sign", keySize := 2048,
    publicKeyArmored := some "upd(PREV;uids:alice@example.org;ARM)",
    pendingSignatures := some { nonce := "zz", sigs := [sigA] } }

/-- The full put outcome in the pending batch witness run. -/
def c4out : PublicKey.PutOut :=
  { db := [c4rec],
    mails := [{ template := "checkNewSigs", email := "alice@example.org",
                keyId := "aabbccddeeff0011", nonce := some "zz" }],
    ctr := 1 }

/-- Expression of the user IDs retained by a fresh upload: the parsed user IDs
with status valid. -/
def validUids (parsed : ParsedKey) : List UserIdRec :=
  (parsed.userIds.map PublicKey.parsedToUserId).filter
    (fun uid => uid.status == some KEY_STATUS_VALID)

/-- Configuration fixture for evaluation witnesses: origin restriction off. -/
def c7cfg : Config := { purgeTimeInDays := 14, restrictUserOrigin := false,
                        restriction := fun _ => false }

/-- Nonce supply fixture for evaluation witnesses: a constant 32 hex character
string. -/
def c7supply : Nat → String := fun _ => "0123456789abcdef0123456789abcdef"


/- ===================== theorems : base64 codec ===================== -/

/-- Disjoint bitwise or is addition: a multiple of a power of two or-ed with a
remainder below that power. -/
theorem lorPowAdd (k : Nat) : ∀ a b : Nat, b < 2 ^ k → a * 2 ^ k ||| b = a * 2 ^ k + b := by
  induction k with
  | zero =>
    intro a b hb
    interval_cases b
    simp
  | succ k ih =>
    intro a b hb
    have hb2 : b / 2 < 2 ^ k := by omega
    have h1 : a * 2 ^ (k + 1) = Nat.bit false (a * 2 ^ k) := by
      simp [Nat.bit_val, Nat.pow_succ]
      ring
    have h2 : b = Nat.bit (b.testBit 0) (b >>> 1) := (Nat.bit_testBit_zero_shiftRight_one b).symm
    have h3 : b >>> 1 = b / 2 := by simp [Nat.shiftRight_eq_div_pow]
    have ht : (false || b.testBit 0).toNat = b % 2 := by
      rcases Nat.mod_two_eq_zero_or_one b with h | h <;> simp [Nat.testBit_zero, h]
    rw [h1]
    conv_lhs => rw [h2]
    rw [Nat.lor_bit, h3, ih a (b / 2) hb2]
    simp only [Nat.bit_val, ht, Bool.toNat_false]
    omega

/-- Bit mask 63 is reduction mod 64. -/
theorem and63 (x : Nat) : x &&& 63 = x % 64 := by
  have h := Nat.and_pow_two_sub_one_eq_mod x 6
  norm_num at h
  exact h

/-- Bit mask 255 is reduction mod 256. -/
theorem and255 (x : Nat) : x &&& 255 = x % 256 := by
  have h := Nat.and_pow_two_sub_one_eq_mod x 8
  norm_num at h
  exact h

/-- Every character emitted by the encoder alphabet map lies in the base64
character class. -/
theorem uint6ToB64_isB64Char (n : Nat) : isB64Char (uint6ToB64 n) = true := by
  unfold uint6ToB64 isB64Char
  split_ifs <;>
    simp only [Bool.or_eq_true, Bool.and_eq_true, decide_eq_true_eq, beq_iff_eq]
  all_goals first
  | omega
  | tauto

/-- The padding character is not in the base64 character class. -/
theorem pad_not_isB64Char : isB64Char 61 = false := by decide

/-- Decoding inverts encoding on six bit values. -/
theorem b64ToUint6_uint6ToB64 : ∀ u < 64, b64ToUint6 (uint6ToB64 u) = u := by decide

theorem shiftMaskA0 : (16 : Nat) >>> 0 &&& 24 = 16 := by decide

theorem shiftMaskA1 : (16 : Nat) >>> 1 &&& 24 = 8 := by decide

theorem shiftMaskA2 : (16 : Nat) >>> 2 &&& 24 = 0 := by decide

theorem shiftMask0 : (16 : Nat) &&& 24 = 16 := by decide

theorem shiftMask1 : (8 : Nat) &&& 24 = 8 := by decide

theorem shiftMask2 : (4 : Nat) &&& 24 = 0 := by decide

theorem encLoop_mod (xs : List Nat) : ∀ n m acc, n % 3 = m % 3 →
    encLoop xs n acc = encLoop xs m acc := by
  induction xs with
  | nil => intro n m acc _; rfl
  | cons b rest ih =>
    intro n m acc h
    simp only [encLoop, h]
    by_cases hc : m % 3 = 2 ∨ rest.isEmpty = true
    · simp only [if_pos hc]
      rw [ih (n+1) (m+1) 0 (by omega)]
    · simp only [if_neg hc]
      rw [ih (n+1) (m+1) _ (by omega)]

theorem encLoop_cons3 (b0 b1 b2 : Nat) (rest : List Nat) (n : Nat) (h : n % 3 = 0) :
    encLoop (b0 :: b1 :: b2 :: rest) n 0 = enc4 b0 b1 b2 ++ encLoop rest (n + 3) 0 := by
  have h1 : (n + 1) % 3 = 1 := by omega
  have h2 : (n + 2) % 3 = 2 := by omega
  simp [encLoop, enc4, h, h1, h2, shiftMask0, shiftMask1, shiftMask2, Nat.add_assoc]

theorem encLoop_single (b0 n : Nat) (h : n % 3 = 0) :
    encLoop [b0] n 0 = enc4 b0 0 0 := by
  simp [encLoop, enc4, h, shiftMask0]

theorem encLoop_pair (b0 b1 n : Nat) (h : n % 3 = 0) :
    encLoop [b0, b1] n 0 = enc4 b0 b1 0 := by
  have h1 : (n + 1) % 3 = 1 := by omega
  simp [encLoop, enc4, h, h1, shiftMask0, shiftMask1]

theorem encLoop_len_ge4 (xs : List Nat) : ∀ n acc, xs ≠ [] → 4 ≤ (encLoop xs n acc).length := by
  induction xs with
  | nil => intro n acc hne; exact absurd rfl hne
  | cons b rest ih =>
    intro n acc _
    simp only [encLoop, List.isEmpty_iff]
    by_cases hc : n % 3 = 2 ∨ rest = []
    · simp [if_pos hc]
    · simp only [if_neg hc]
      have hrest : rest ≠ [] := fun he => hc (Or.inr he)
      exact ih (n + 1) _ hrest

theorem chunk3Induction (P : List Nat → Prop) (h0 : P []) (h1 : ∀ b0, P [b0])
    (h2 : ∀ b0 b1, P [b0, b1])
    (h3 : ∀ b0 b1 b2 rest, P rest → P (b0 :: b1 :: b2 :: rest)) : ∀ a, P a
  | [] => h0
  | [b0] => h1 b0
  | [b0, b1] => h2 b0 b1
  | b0 :: b1 :: b2 :: rest => h3 b0 b1 b2 rest (chunk3Induction P h0 h1 h2 h3 rest)

theorem base64EncArr_eq_chunkEnc : ∀ a, base64EncArr a = chunkEnc a := by
  refine chunk3Induction _ ?_ ?_ ?_ ?_
  · rfl
  · intro b0
    simp [base64EncArr, chunkEnc, encLoop_single b0 0 rfl, enc4]
  · intro b0 b1
    simp [base64EncArr, chunkEnc, encLoop_pair b0 b1 0 rfl, enc4]
  · intro b0 b1 b2 rest ih
    by_cases hne : rest = []
    · subst hne
      simp [base64EncArr, chunkEnc, encLoop_cons3 b0 b1 b2 [] 0 rfl, encLoop, enc4,
        shiftMask0, shiftMask1, shiftMask2]
    · have hlen4 : 4 ≤ (encLoop rest 0 0).length := encLoop_len_ge4 rest 0 0 hne
      have hchunk := encLoop_cons3 b0 b1 b2 rest 0 rfl
      have hshift := encLoop_mod rest 3 0 0 (by omega)
      have h4 : (enc4 b0 b1 b2).length = 4 := by simp [enc4]
      unfold base64EncArr
      rw [hchunk, hshift]
      unfold base64EncArr at ih
      rw [chunkEnc, ← ih]
      by_cases he : (3 - (b0 :: b1 :: b2 :: rest).length % 3) % 3 = 0
      · have he2 : (3 - rest.length % 3) % 3 = 0 := by
          simp only [List.length_cons] at he ⊢
          omega
        rw [if_pos he, if_pos he2]
      · have he2v : (3 - rest.length % 3) % 3 = (3 - (b0 :: b1 :: b2 :: rest).length % 3) % 3 := by
          simp only [List.length_cons]
          omega
        have he2 : ¬(3 - rest.length % 3) % 3 = 0 := by
          rw [he2v]
          exact he
        rw [if_neg he, if_neg he2, he2v]
        have heL : (3 - (b0 :: b1 :: b2 :: rest).length % 3) % 3 ≤ 2 := by omega
        rw [List.length_append, h4]
        have hsplit : 4 + (encLoop rest 0 0).length -
            (3 - (b0 :: b1 :: b2 :: rest).length % 3) % 3 =
            (enc4 b0 b1 b2).length +
              ((encLoop rest 0 0).length - (3 - (b0 :: b1 :: b2 :: rest).length % 3) % 3) := by
          rw [h4]
          omega
        rw [hsplit, List.take_append, List.append_assoc]

theorem pow2_6 : (2 : Nat) ^ 6 = 64 := by norm_num

theorem pow2_8 : (2 : Nat) ^ 8 = 256 := by norm_num

theorem pow2_12 : (2 : Nat) ^ 12 = 4096 := by norm_num

theorem pow2_16 : (2 : Nat) ^ 16 = 65536 := by norm_num

theorem pow2_18 : (2 : Nat) ^ 18 = 262144 := by norm_num

theorem u63_lt (x : Nat) : x &&& 63 < 64 := by
  rw [and63]
  omega

theorem roundTrip63 (x : Nat) : b64ToUint6 (uint6ToB64 (x &&& 63)) = x &&& 63 :=
  b64ToUint6_uint6ToB64 (x &&& 63) (u63_lt x)

theorem orChain2 (u0 u1 : Nat) (h1 : u1 < 64) :
    (u0 <<< 18) ||| (u1 <<< 12) = u0 * 2 ^ 18 + u1 * 2 ^ 12 := by
  rw [Nat.shiftLeft_eq, Nat.shiftLeft_eq]
  exact lorPowAdd 18 u0 (u1 * 2 ^ 12) (by rw [pow2_12, pow2_18]; omega)

theorem orChain3 (u0 u1 u2 : Nat) (h1 : u1 < 64) (h2 : u2 < 64) :
    ((u0 <<< 18) ||| (u1 <<< 12)) ||| (u2 <<< 6) =
      u0 * 2 ^ 18 + u1 * 2 ^ 12 + u2 * 2 ^ 6 := by
  rw [orChain2 u0 u1 h1, Nat.shiftLeft_eq]
  rw [show u0 * 2 ^ 18 + u1 * 2 ^ 12 = (u0 * 2 ^ 6 + u1) * 2 ^ 12 from by ring]
  rw [lorPowAdd 12 (u0 * 2 ^ 6 + u1) (u2 * 2 ^ 6) (by rw [pow2_6, pow2_12]; omega)]

theorem orChain4 (u0 u1 u2 u3 : Nat) (h1 : u1 < 64) (h2 : u2 < 64) (h3 : u3 < 64) :
    (((u0 <<< 18) ||| (u1 <<< 12)) ||| (u2 <<< 6)) ||| u3 =
      u0 * 2 ^ 18 + u1 * 2 ^ 12 + u2 * 2 ^ 6 + u3 := by
  rw [orChain3 u0 u1 u2 h1 h2]
  rw [show u0 * 2 ^ 18 + u1 * 2 ^ 12 + u2 * 2 ^ 6 = (u0 * 2 ^ 12 + u1 * 2 ^ 6 + u2) * 2 ^ 6 from by
    ring]
  rw [lorPowAdd 6 (u0 * 2 ^ 12 + u1 * 2 ^ 6 + u2) u3 (by rw [pow2_6]; omega)]

theorem bytesAcc (b0 b1 b2 : Nat) (h1 : b1 < 256) (h2 : b2 < 256) :
    ((b0 <<< 16) ||| (b1 <<< 8)) ||| b2 = b0 * 2 ^ 16 + b1 * 2 ^ 8 + b2 := by
  rw [Nat.shiftLeft_eq, Nat.shiftLeft_eq]
  rw [lorPowAdd 16 b0 (b1 * 2 ^ 8) (by rw [pow2_8, pow2_16]; omega)]
  rw [show b0 * 2 ^ 16 + b1 * 2 ^ 8 = (b0 * 2 ^ 8 + b1) * 2 ^ 8 from by ring]
  rw [lorPowAdd 8 (b0 * 2 ^ 8 + b1) b2 (by rw [pow2_8]; omega)]

theorem bytesAcc2 (b0 b1 : Nat) (h1 : b1 < 256) :
    (b0 <<< 16) ||| (b1 <<< 8) = b0 * 2 ^ 16 + b1 * 2 ^ 8 := by
  rw [Nat.shiftLeft_eq, Nat.shiftLeft_eq]
  exact lorPowAdd 16 b0 (b1 * 2 ^ 8) (by rw [pow2_8, pow2_16]; omega)

theorem filter_chunkEnc : ∀ a, (chunkEnc a).filter isB64Char = rawChunks a := by
  refine chunk3Induction _ ?_ ?_ ?_ ?_
  · rfl
  · intro b0
    simp [chunkEnc, rawChunks, enc4, uint6ToB64_isB64Char, pad_not_isB64Char]
  · intro b0 b1
    simp [chunkEnc, rawChunks, enc4, uint6ToB64_isB64Char, pad_not_isB64Char]
  · intro b0 b1 b2 rest ih
    simp [chunkEnc, rawChunks, enc4, uint6ToB64_isB64Char, List.filter_append, ih]

theorem rawChunks_outLen : ∀ a, ((rawChunks a).length * 3 + 1) >>> 2 = a.length := by
  have hdiv : ∀ x : Nat, x >>> 2 = x / 4 := fun x => by
    rw [Nat.shiftRight_eq_div_pow]
  refine chunk3Induction _ ?_ ?_ ?_ ?_
  · rfl
  · intro b0
    simp [rawChunks, enc4]
  · intro b0 b1
    simp [rawChunks, enc4]
  · intro b0 b1 b2 rest ih
    rw [hdiv] at ih ⊢
    simp only [rawChunks, List.length_append, List.length_cons]
    have h4 : (enc4 b0 b1 b2).length = 4 := by simp [enc4]
    rw [h4]
    omega

theorem decLoop_group (c0 c1 c2 c3 : Nat) (cs : List Nat) (n k K : Nat) (h : n % 4 = 0)
    (hK : 3 ≤ K - k) :
    decLoop (c0 :: c1 :: c2 :: c3 :: cs) n 0 k K =
      decFlush ((((b64ToUint6 c0 <<< 18) ||| (b64ToUint6 c1 <<< 12)) |||
        (b64ToUint6 c2 <<< 6)) ||| b64ToUint6 c3) 3 ++
      decLoop cs (n + 4) 0 (k + 3) K := by
  have h1 : (n + 1) % 4 = 1 := by omega
  have h2 : (n + 2) % 4 = 2 := by omega
  have h3 : (n + 3) % 4 = 3 := by omega
  have hmin : min 3 (K - k) = 3 := by omega
  simp [decLoop, h, h1, h2, h3, hmin, Nat.add_assoc]

theorem decLoop_last2 (c0 c1 : Nat) (n k K : Nat) (h : n % 4 = 0) (hK : K - k = 1) :
    decLoop [c0, c1] n 0 k K =
      decFlush ((b64ToUint6 c0 <<< 18) ||| (b64ToUint6 c1 <<< 12)) 1 := by
  have h1 : (n + 1) % 4 = 1 := by omega
  have hmin : min 3 (K - k) = 1 := by omega
  simp [decLoop, h, h1, hmin]

theorem decLoop_last3 (c0 c1 c2 : Nat) (n k K : Nat) (h : n % 4 = 0) (hK : K - k = 2) :
    decLoop [c0, c1, c2] n 0 k K =
      decFlush (((b64ToUint6 c0 <<< 18) ||| (b64ToUint6 c1 <<< 12)) |||
        (b64ToUint6 c2 <<< 6)) 2 := by
  have h1 : (n + 1) % 4 = 1 := by omega
  have h2 : (n + 2) % 4 = 2 := by omega
  have hmin : min 3 (K - k) = 2 := by omega
  simp [decLoop, h, h1, h2, hmin]

theorem decLoop_rawChunks : ∀ a : List Nat, ∀ n k K : Nat, n % 4 = 0 → K = k + a.length →
    (∀ b ∈ a, b < 256) → decLoop (rawChunks a) n 0 k K = a := by
  refine chunk3Induction _ ?_ ?_ ?_ ?_
  · intro n k K _ _ _
    rfl
  · intro b0 n k K hn hK hb
    have hb0 : b0 < 256 := hb b0 (by simp)
    simp only [rawChunks, enc4]
    simp only [Nat.zero_shiftLeft, Nat.or_zero]
    rw [show List.take 2
        [uint6ToB64 (b0 <<< 16 >>> 18 &&& 63), uint6ToB64 (b0 <<< 16 >>> 12 &&& 63),
          uint6ToB64 (b0 <<< 16 >>> 6 &&& 63), uint6ToB64 (b0 <<< 16 &&& 63)] =
        [uint6ToB64 (b0 <<< 16 >>> 18 &&& 63), uint6ToB64 (b0 <<< 16 >>> 12 &&& 63)] from rfl]
    rw [decLoop_last2 _ _ n k K hn (by simp at hK; omega)]
    rw [roundTrip63, roundTrip63]
    rw [orChain2 _ _ (u63_lt _)]
    simp only [decFlush, List.take, shiftMaskA0, shiftMaskA1, shiftMaskA2, List.cons.injEq, and_true]
    simp only [and63, and255, Nat.shiftRight_eq_div_pow, Nat.shiftLeft_eq, pow2_6, pow2_8,
      pow2_12, pow2_16, pow2_18]
    omega
  · intro b0 b1 n k K hn hK hb
    have hb0 : b0 < 256 := hb b0 (by simp)
    have hb1 : b1 < 256 := hb b1 (by simp)
    simp only [rawChunks, enc4]
    simp only [Nat.zero_shiftLeft, Nat.or_zero]
    rw [show ∀ x0 x1 x2 x3 : Nat, List.take 3 [x0, x1, x2, x3] = [x0, x1, x2] from
      fun x0 x1 x2 x3 => rfl]
    rw [decLoop_last3 _ _ _ n k K hn (by simp at hK; omega)]
    rw [roundTrip63, roundTrip63, roundTrip63]
    rw [orChain3 _ _ _ (u63_lt _) (u63_lt _)]
    rw [bytesAcc2 b0 b1 hb1]
    simp only [decFlush, List.take, shiftMaskA0, shiftMaskA1, shiftMaskA2, List.cons.injEq,
      and_true]
    simp only [and63, and255, Nat.shiftRight_eq_div_pow, Nat.shiftLeft_eq, pow2_6, pow2_8,
      pow2_12, pow2_16, pow2_18]
    constructor
    · omega
    · omega
  · intro b0 b1 b2 rest ih n k K hn hK hb
    have hb0 : b0 < 256 := hb b0 (by simp)
    have hb1 : b1 < 256 := hb b1 (by simp)
    have hb2 : b2 < 256 := hb b2 (by simp)
    have hbrest : ∀ b ∈ rest, b < 256 := fun b hbm => hb b (by simp [hbm])
    simp only [rawChunks, enc4]
    simp only [List.cons_append, List.nil_append]
    rw [decLoop_group _ _ _ _ _ n k K hn (by simp at hK; omega)]
    rw [roundTrip63, roundTrip63, roundTrip63, roundTrip63]
    rw [orChain4 _ _ _ _ (u63_lt _) (u63_lt _) (u63_lt _)]
    rw [bytesAcc b0 b1 b2 hb1 hb2]
    rw [ih (n + 4) (k + 3) K (by omega) (by simp at hK ⊢; omega) hbrest]
    simp only [decFlush, List.take, shiftMaskA0, shiftMaskA1, shiftMaskA2]
    simp only [and63, and255, Nat.shiftRight_eq_div_pow, Nat.shiftLeft_eq, pow2_6, pow2_8,
      pow2_12, pow2_16, pow2_18, List.cons_append, List.nil_append, List.cons.injEq]
    refine ⟨by omega, by omega, by omega, trivial⟩

/-- C10: for every byte array, base64DecToArr inverts base64EncArr, including
lengths not divisible by three. -/
theorem C10_base64_roundtrip (a : List Nat) (h : ∀ b ∈ a, b < 256) :
    base64DecToArr (base64EncArr a) = a := by
  simp only [base64DecToArr]
  rw [base64EncArr_eq_chunkEnc, filter_chunkEnc, rawChunks_outLen]
  exact decLoop_rawChunks a 0 0 a.length rfl (by omega) h

theorem C10_base64_roundtrip_witness :
    (∀ b ∈ [77, 97, 110, 0, 255, 254, 7], b < 256) ∧
      base64DecToArr (base64EncArr [77, 97, 110, 0, 255, 254, 7]) =
        [77, 97, 110, 0, 255, 254, 7] :=
  ⟨by decide, C10_base64_roundtrip _ (by decide)⟩

/- ===================== theorems : service operations ===================== -/

/-- C8: for every query, get fails 404 exactly when getVerified matches no
record; otherwise it returns the matched record with the document id removed,
each user ID reduced to name, email and verified (no nonce, no shadow armored
block), and the pending batch nonce removed when a batch is present. -/
theorem C8_get_strips_internal_fields (db : DB) (fingerprint keyId email : Option String) :
    (PublicKey.get db fingerprint keyId email = .error ⟨404, "key_not_found"⟩ ↔
      PublicKey.getVerified db (email.map (fun e => [e])) fingerprint keyId = none) ∧
    (∀ key, PublicKey.getVerified db (email.map (fun e => [e])) fingerprint keyId = some key →
      PublicKey.get db fingerprint keyId email = .ok {
        keyId := key.keyId
        fingerprint := key.fingerprint
        userIds := key.userIds.map (fun uid =>
          { name := uid.name, email := uid.email, verified := uid.verified })
        created := key.created
        uploaded := key.uploaded
        algorithm := key.algorithm
        keySize := key.keySize
        publicKeyArmored := key.publicKeyArmored
        pendingSignatures := key.pendingSignatures.map (fun p => { sigs := p.sigs }) }) := by
  constructor
  · unfold PublicKey.get
    cases h : PublicKey.getVerified db (email.map (fun e => [e])) fingerprint keyId with
    | none => simp [h]
    | some key => simp [h]
  · intro key h
    unfold PublicKey.get
    simp [h]

theorem C8_get_strips_internal_fields_witness :
    PublicKey.get [mkRec "k1" [mkUid "alice@x" true none none] (some "ARM") none]
        none none (some "alice@x") =
      .ok { keyId := "k1", fingerprint := "fpr-k1",
            userIds := [{ name := "User", email := "alice@x", verified := true }],
            created := 0, uploaded := 50, algorithm := "rsa_encrypt_sign", keySize := 2048,
            publicKeyArmored := some "ARM", pendingSignatures := none } :=
  (C8_get_strips_internal_fields
      [mkRec "k1" [mkUid "alice@x" true none none] (some "ARM") none]
      none none (some "alice@x")).2
    (mkRec "k1" [mkUid "alice@x" true none none] (some "ARM") none) (by decide)

/-- C6: verifyRemove fails 404 when no record carries the key id and nonce; a
single-user record is deleted whole; on a record with several user IDs only
the target is removed (all others unchanged, expressed by eraseIdx at the
target position), the armored block is stripped of the target email via
removeUserId when the target was verified alongside at least one other
verified user ID, nulled when the target was the last verified user ID, and
untouched when the target was unverified; the removed user ID is returned.
The single-user case is recognised by the length test of the source. -/
theorem C6_verifyRemove_behaviour (pgp : PGPAdapter) (keyId nonce : String) (db : DB) :
    (db.find? (PublicKey.verifyQueryMatch keyId nonce) = none →
      PublicKey.verifyRemove pgp keyId nonce db = .error ⟨404, "User ID not found"⟩) ∧
    (∀ flagged u, db.find? (PublicKey.verifyQueryMatch keyId nonce) = some flagged →
      flagged.userIds = [u] →
      PublicKey.verifyRemove pgp keyId nonce db =
        .ok { db := db.filter (fun r => !(r.keyId == keyId)), removed := u }) ∧
    (∀ flagged rm newArmored,
      db.find? (PublicKey.verifyQueryMatch keyId nonce) = some flagged →
      2 ≤ flagged.userIds.length →
      flagged.userIds[flagged.userIds.findIdx (fun u => u.nonce == some nonce)]? = some rm →
      ((rm.verified = true ∧ 1 < (flagged.userIds.filter (fun u => u.verified)).length ∧
         (∃ a, flagged.publicKeyArmored = some a ∧
           newArmored = some (pgp.removeUserId rm.email a))) ∨
       (rm.verified = true ∧ (flagged.userIds.filter (fun u => u.verified)).length ≤ 1 ∧
         newArmored = none) ∨
       (rm.verified = false ∧ newArmored = flagged.publicKeyArmored)) →
      PublicKey.verifyRemove pgp keyId nonce db =
        .ok { db := updateFirst (fun r => r.keyId == keyId)
                (fun _ =>
                  { flagged with
                      publicKeyArmored := newArmored
                      userIds := flagged.userIds.eraseIdx
                        (flagged.userIds.findIdx (fun u => u.nonce == some nonce)) }) db,
              removed := rm }) := by
  refine ⟨?_, ?_, ?_⟩
  · intro h
    unfold PublicKey.verifyRemove
    rw [h]
  · intro flagged u hf hu
    unfold PublicKey.verifyRemove
    rw [hf]
    simp only [hu]
    rfl
  · intro flagged rm newArmored hf hlen hget hcases
    unfold PublicKey.verifyRemove
    rw [hf]
    have hne : (flagged.userIds.length == 1) = false := by
      simp only [beq_eq_false_iff_ne, ne_eq]
      omega
    simp only [hne, Bool.false_eq_true, if_false, hget]
    rcases hcases with ⟨hv, hc, a, ha, hna⟩ | ⟨hv, hc, hna⟩ | ⟨hv, hna⟩
    · simp only [hv, if_true, ha, hna]
      rw [if_pos hc]
      simp [Except.bind, bind]
    · simp only [hv, if_true, hna]
      rw [if_neg (by omega)]
      simp [Except.bind, bind]
    · simp only [hv, Bool.false_eq_true, if_false, hna]
      simp [Except.bind, bind]

theorem C6_verifyRemove_behaviour_witness :
    PublicKey.verifyRemove mockPGP "k1" "n1"
        [mkRec "k1" [mkUid "a@x" true (some "n1") none, mkUid "b@x" true none none]
          (some "ARM") none] =
      .ok { db := [mkRec "k1" [mkUid "b@x" true none none] (some "ARM-uid:a@x") none],
            removed := mkUid "a@x" true (some "n1") none } := by
  have h := (C6_verifyRemove_behaviour mockPGP "k1" "n1"
      [mkRec "k1" [mkUid "a@x" true (some "n1") none, mkUid "b@x" true none none]
        (some "ARM") none]).2.2
    (mkRec "k1" [mkUid "a@x" true (some "n1") none, mkUid "b@x" true none none]
      (some "ARM") none)
    (mkUid "a@x" true (some "n1") none) (some "ARM-uid:a@x")
    (by decide) (by decide) (by decide)
    (Or.inl ⟨by decide, by decide, "ARM", by decide, by decide⟩)
  rw [h]
  congr 1

theorem find?_append_none {α : Type} (p : α → Bool) (l1 l2 : List α)
    (h : ∀ x ∈ l1, p x = false) : (l1 ++ l2).find? p = l2.find? p := by
  induction l1 with
  | nil => rfl
  | cons a l ih =>
    simp only [List.cons_append, List.find?_cons, h a (by simp)]
    exact ih (fun x hx => h x (by simp [hx]))

theorem updateFirst_append_none (p : KeyRecord → Bool) (f : KeyRecord → KeyRecord)
    (l1 l2 : DB) (h : ∀ r ∈ l1, p r = false) :
    updateFirst p f (l1 ++ l2) = l1 ++ updateFirst p f l2 := by
  induction l1 with
  | nil => rfl
  | cons a l ih =>
    simp only [List.cons_append, updateFirst, h a (by simp), Bool.false_eq_true, if_false]
    rw [show l.append l2 = l ++ l2 from rfl, ih (fun r hr => h r (by simp [hr]))]

theorem updateFirst_cons_true (p : KeyRecord → Bool) (f : KeyRecord → KeyRecord)
    (k : KeyRecord) (rest : DB) (h : p k = true) :
    updateFirst p f (k :: rest) = f k :: rest := by
  simp [updateFirst, h]

theorem mem_updateFirstUid (p : UserIdRec → Bool) (f : UserIdRec → UserIdRec) :
    ∀ uids t, uids.find? p = some t → f t ∈ updateFirstUid p f uids := by
  intro uids
  induction uids with
  | nil => intro t h; simp at h
  | cons u rest ih =>
    intro t h
    by_cases hp : p u = true
    · rw [List.find?_cons_of_pos _ hp] at h
      cases h
      simp [updateFirstUid, hp]
    · have hp' : p u = false := by simpa using hp
      rw [List.find?_cons_of_neg _ (by simp [hp'])] at h
      simp only [updateFirstUid, hp', Bool.false_eq_true, if_false]
      exact List.mem_cons_of_mem u (ih t h)

theorem exists_find?_singleton (p : KeyRecord → Bool) (k : KeyRecord) (hp : p k = true)
    (P : KeyRecord → Prop) (hP : P k) : ∃ rec, List.find? p [k] = some rec ∧ P rec :=
  ⟨k, by simp [List.find?_cons, hp], hP⟩

theorem sendVerify_strip_find (supply : Nat → String) (k nonce : String) :
    ∀ (uids : List UserIdRec) (ctr : Nat),
      (∀ u ∈ uids, u.nonce = some nonce → u.notify ≠ some true) →
      (∀ j, supply j ≠ nonce) →
      (PublicKey.stripStatusNotify (PublicKey.sendVerifyEmailLoop supply k uids ctr).1).find?
          (fun u => u.nonce == some nonce) =
        (uids.find? (fun u => u.nonce == some nonce)).map
          (fun t => { t with status := none, notify := none }) := by
  intro uids
  induction uids with
  | nil => intro ctr _ _; rfl
  | cons u rest ih =>
    intro ctr hsafe hfresh
    have hrest : ∀ v ∈ rest, v.nonce = some nonce → v.notify ≠ some true :=
      fun v hv => hsafe v (List.mem_cons_of_mem u hv)
    by_cases hn : (u.notify == some true) = true
    · have hun : (u.nonce == some nonce) = false := by
        rcases hx : u.nonce with _ | s
        · rfl
        · simp only [beq_eq_false_iff_ne, ne_eq, Option.some.injEq]
          intro he
          exact hsafe u (by simp) (by rw [hx, he]) (by simpa using hn)
      have hfr : (some (supply ctr) == some nonce) = false := by
        simp [hfresh ctr]
      simp only [PublicKey.sendVerifyEmailLoop, hn, if_true, PublicKey.stripStatusNotify,
        List.map_cons, List.find?_cons, hfr, hun]
      exact ih (ctr + 1) hrest hfresh
    · have hn' : (u.notify == some true) = false := by simpa using hn
      simp only [PublicKey.sendVerifyEmailLoop, hn', Bool.false_eq_true, if_false,
        PublicKey.stripStatusNotify, List.map_cons, List.find?_cons]
      by_cases hu : (u.nonce == some nonce) = true
      · simp [hu]
      · have hu' : (u.nonce == some nonce) = false := by simpa using hu
        simp only [hu', cond_false]
        exact ih ctr hrest hfresh

/-- C1: verify fails with the 404 UserIdNotFound error exactly when no stored
record has the key id together with a user ID carrying the nonce. On a match,
with fresh supply nonces distinct from the submitted nonce and no
notify-flagged user ID carrying the submitted nonce, verify succeeds: the
returned email is the target user ID email, and the stored record under that
key id carries the merged armored block (updateKey of the previous record
armored block with the target shadow block, or the shadow block alone when the
record block was null) and the target user ID with verified true, nonce null
and shadow block null. -/
theorem C1_verify_behaviour (pgp : PGPAdapter) (supply : Nat → String) (keyId nonce : String)
    (db : DB) (ctr : Nat) :
    (PublicKey.verify pgp supply keyId nonce db ctr = .error ⟨404, "User ID not found"⟩ ↔
      db.find? (PublicKey.verifyQueryMatch keyId nonce) = none) ∧
    (∀ key t newArmored,
      db.find? (PublicKey.verifyQueryMatch keyId nonce) = some key →
      (∀ j, supply j ≠ nonce) →
      (∀ u ∈ key.userIds, u.nonce = some nonce → u.notify ≠ some true) →
      key.userIds.find? (fun u => u.nonce == some nonce) = some t →
      ((∃ p s, key.publicKeyArmored = some p ∧ t.publicKeyArmored = some s ∧
          newArmored = some (pgp.updateKey p s)) ∨
        (key.publicKeyArmored = none ∧ newArmored = t.publicKeyArmored)) →
      ∃ out, PublicKey.verify pgp supply keyId nonce db ctr = .ok out ∧
        out.email = t.email ∧
        ∃ rec, out.db.find? (fun r => r.keyId == keyId) = some rec ∧
          rec.publicKeyArmored = newArmored ∧
          ({ name := t.name, email := t.email, verified := true, nonce := none,
             publicKeyArmored := none, status := none, notify := none } : UserIdRec) ∈
            rec.userIds) := by
  constructor
  · constructor
    · intro h
      cases hf : db.find? (PublicKey.verifyQueryMatch keyId nonce) with
      | none => rfl
      | some key =>
        exfalso
        unfold PublicKey.verify at h
        rw [hf] at h
        revert h
        cases hT : (PublicKey.stripStatusNotify
            (PublicKey.sendVerifyEmailLoop supply key.keyId key.userIds ctr).1).find?
            (fun u => u.nonce == some nonce) with
        | none => simp [hT, Except.bind, bind]
        | some t1 =>
          cases hA : key.publicKeyArmored with
          | none => simp [hT, hA, Except.bind, bind]
          | some p =>
            cases hS : t1.publicKeyArmored with
            | none => simp [hT, hA, hS, Except.bind, bind]
            | some s => simp [hT, hA, hS, Except.bind, bind]
    · intro h
      unfold PublicKey.verify
      rw [h]
  · intro key t newArmored hf hfresh hsafe hT hcaseA
    have hq := List.find?_some hf
    have hkid : (key.keyId == keyId) = true := by
      unfold PublicKey.verifyQueryMatch at hq
      exact (Bool.and_eq_true_iff.mp hq).1
    have hkeq : key.keyId = keyId := by
      exact eq_of_beq hkid
    have hFS := sendVerify_strip_find supply key.keyId nonce key.userIds ctr hsafe hfresh
    rw [hT] at hFS
    unfold PublicKey.verify
    rw [hf]
    simp only [hFS, Except.bind, bind, Option.map_some']
    have hpre1 : ∀ r ∈ db.filter (fun r => !(r.keyId == key.keyId)), (r.keyId == keyId) = false := by
      intro r hr
      have h2 := (List.mem_filter.mp hr).2
      rw [← hkeq]
      simpa using h2
    have hFS' := hFS
    rw [Option.map_some'] at hFS'
    have main : ∀ A B : Option Armored,
        ∃ rec,
          (updateFirst (PublicKey.verifyQueryMatch keyId nonce)
              (fun r =>
                { r with
                    publicKeyArmored := A
                    userIds := updateFirstUid (fun u => u.nonce == some nonce)
                      (fun u =>
                        { u with verified := true, nonce := none, publicKeyArmored := none })
                      r.userIds })
              (List.filter
                (fun r => !(!(r.keyId == key.keyId) &&
                  r.userIds.any (fun u => u.email == t.email)))
                (PublicKey.persistKey db
                  { key with
                      userIds := (PublicKey.sendVerifyEmailLoop supply key.keyId
                        key.userIds ctr).1
                      publicKeyArmored := B }))).find? (fun r => r.keyId == keyId) = some rec ∧
          rec.publicKeyArmored = A ∧
          ({ name := t.name, email := t.email, verified := true, nonce := none,
             publicKeyArmored := none, status := none, notify := none } : UserIdRec) ∈
            rec.userIds := by
      intro A B
      simp only [PublicKey.persistKey]
      rw [List.filter_append]
      simp only [List.filter_cons, List.filter_nil, beq_self_eq_true, Bool.not_true,
        Bool.false_and, Bool.not_false, if_true]
      rw [updateFirst_append_none _ _ _ _ (fun r hr => by
        unfold PublicKey.verifyQueryMatch
        rw [← hkeq]
        have hm := List.mem_filter.mp hr
        have h2 := (List.mem_filter.mp hm.1).2
        simp only [Bool.not_eq_true'] at h2
        simp [h2])]
      have hmemT := List.mem_of_find?_eq_some hFS'
      have hpredT := List.find?_some hFS'
      rw [updateFirst_cons_true _ _ _ _ (by
        unfold PublicKey.verifyQueryMatch
        simp only [hkid, Bool.true_and]
        rw [List.any_eq_true]
        exact ⟨_, hmemT, hpredT⟩)]
      rw [find?_append_none _ _ _ (fun r hr => by
        rw [← hkeq]
        have hm := List.mem_filter.mp hr
        have h2 := (List.mem_filter.mp hm.1).2
        simpa using h2)]
      exact exists_find?_singleton _ _ (by simp [hkid]) _
        ⟨rfl, mem_updateFirstUid _ _ _ _ hFS'⟩
    rcases hcaseA with ⟨p, s, hP, hS, hN⟩ | ⟨hP, hN⟩
    · simp only [hP, hS]
      refine ⟨_, rfl, rfl, ?_⟩
      rw [hN]
      exact main (some (pgp.updateKey p s)) (some p)
    · simp only [hP]
      refine ⟨_, rfl, rfl, ?_⟩
      rw [hN]
      exact main t.publicKeyArmored none

theorem C1_verify_behaviour_witness :
    ∃ out, PublicKey.verify mockPGP (fun _ => "zz") "k1" "n1"
        [mkRec "k1" [mkUid "a@x" false (some "n1") (some "SHADOW"),
          mkUid "b@x" true none none] (some "PREV") none] 0 = .ok out ∧
      out.email = "a@x" ∧
      ∃ rec, out.db.find? (fun r => r.keyId == "k1") = some rec ∧
        rec.publicKeyArmored = some "upd(PREV;SHADOW)" ∧
        ({ name := "User", email := "a@x", verified := true, nonce := none,
           publicKeyArmored := none, status := none, notify := none } : UserIdRec) ∈
          rec.userIds :=
  (C1_verify_behaviour mockPGP (fun _ => "zz") "k1" "n1"
      [mkRec "k1" [mkUid "a@x" false (some "n1") (some "SHADOW"),
        mkUid "b@x" true none none] (some "PREV") none] 0).2
    (mkRec "k1" [mkUid "a@x" false (some "n1") (some "SHADOW"),
      mkUid "b@x" true none none] (some "PREV") none)
    (mkUid "a@x" false (some "n1") (some "SHADOW"))
    (some "upd(PREV;SHADOW)")
    (by decide) (fun j => by decide) (by decide) (by decide)
    (Or.inl ⟨"PREV", "SHADOW", by decide, by decide, by decide⟩)

/-- C2: evaluation of verifySignatures at the failing input of the claim: a
record with two pending signatures and both md5 hashes selected. The persisted
armored block is updateKey of the original block with the one-signature block
of the SECOND signature alone: each loop iteration re-attaches to the original
record block and overwrites the accumulator, so the first selected signature
never reaches the stored armored block, contradicting the claim that every
selected signature is reattached when two or more are selected. -/
theorem C2_verifySignatures_keeps_only_last_selected (pgp : PGPAdapter) :
    PublicKey.verifySignatures pgp (fun s => "h" ++ s) "k1" "n1" ["hS1", "hS2"]
        [mkRec "k1" [mkUid "a@x" true none none] (some "ORIG")
          (some { nonce := "n1",
                  sigs := [{ user := { userId := some "uidA", userAttribute := none },
                             signature := "S1" },
                           { user := { userId := some "uidA", userAttribute := none },
                             signature := "S2" }] })] =
      .ok { db := [{ mkRec "k1" [mkUid "a@x" true none none] (some "ORIG")
                       (some { nonce := "n1",
                               sigs := [{ user := { userId := some "uidA",
                                                    userAttribute := none },
                                          signature := "S1" },
                                        { user := { userId := some "uidA",
                                                    userAttribute := none },
                                          signature := "S2" }] }) with
                       publicKeyArmored := some (pgp.updateKey "ORIG"
                         (pgp.addSignature "ORIG"
                           { user := { userId := some "uidA", userAttribute := none },
                             signature := "S2" })),
                       pendingSignatures := none }],
            email := (pgp.getPrimaryUser (pgp.updateKey "ORIG"
              (pgp.addSignature "ORIG"
                { user := { userId := some "uidA", userAttribute := none },
                  signature := "S2" }))).email } := by
  rfl

theorem mem_listedHashes_mapPush (k : Option String) (v : PublicKey.PendingSigEntry) :
    ∀ m h, h ∈ PublicKey.listedHashes (PublicKey.mapPush k v m) ↔
      h = v.hash ∨ h ∈ PublicKey.listedHashes m := by
  intro m
  induction m with
  | nil =>
    intro h
    simp [PublicKey.mapPush, PublicKey.listedHashes]
  | cons kv rest ih =>
    intro h
    obtain ⟨k1, vs⟩ := kv
    by_cases hk : (k1 == k) = true
    · simp only [PublicKey.mapPush, hk, if_true, PublicKey.listedHashes, List.flatMap_cons,
        List.map_append, List.mem_append, List.map_cons, List.map_nil, List.mem_singleton]
      tauto
    · have hk' : (k1 == k) = false := by simpa using hk
      simp only [PublicKey.mapPush, hk', Bool.false_eq_true, if_false, PublicKey.listedHashes,
        List.flatMap_cons, List.mem_append]
      simp only [PublicKey.listedHashes] at ih
      rw [ih h]
      tauto

theorem gpsStep_ok_shape (pgp : PGPAdapter) (md5 : String → String) (db : DB)
    (m : List (Option String × List PublicKey.PendingSigEntry)) (ps : PendingSig)
    (m1 : List (Option String × List PublicKey.PendingSigEntry))
    (h : PublicKey.gpsStep pgp md5 db m ps = .ok m1) :
    ∃ e : PublicKey.PendingSigEntry, e.hash = md5 ps.signature ∧
      m1 = PublicKey.mapPush ps.user.userId e m := by
  unfold PublicKey.gpsStep at h
  simp only [Except.bind, bind] at h
  cases hv : PublicKey.getVerified db none
      (some (pgp.getSignatureFromBase64 ps.signature).issuerFingerprint) none with
  | none =>
    simp only [hv] at h
    cases h
    exact ⟨_, rfl, rfl⟩
  | some v =>
    cases ha : v.publicKeyArmored with
    | none => simp [hv, ha] at h
    | some a =>
      simp only [hv, ha] at h
      cases h
      exact ⟨_, rfl, rfl⟩

theorem gps_fold_hashes (pgp : PGPAdapter) (md5 : String → String) (db : DB) :
    ∀ (sigsL : List PendingSig) (m out : List (Option String × List PublicKey.PendingSigEntry)),
      sigsL.foldlM (PublicKey.gpsStep pgp md5 db) m = .ok out →
      ∀ h, h ∈ PublicKey.listedHashes out ↔
        (h ∈ PublicKey.listedHashes m ∨ ∃ ps ∈ sigsL, h = md5 ps.signature) := by
  intro sigsL
  induction sigsL with
  | nil =>
    intro m out hfold h
    simp only [List.foldlM_nil] at hfold
    cases hfold
    simp
  | cons ps rest ih =>
    intro m out hfold h
    simp only [List.foldlM_cons, Except.bind, bind] at hfold
    cases hstep : PublicKey.gpsStep pgp md5 db m ps with
    | error e => rw [hstep] at hfold; cases hfold
    | ok m1 =>
      rw [hstep] at hfold
      obtain ⟨e, he, hm1⟩ := gpsStep_ok_shape pgp md5 db m ps m1 hstep
      rw [ih m1 out hfold h, hm1, mem_listedHashes_mapPush, he]
      simp only [List.mem_cons]
      constructor
      · rintro ((hh | hh) | ⟨q, hq, hqe⟩)
        · exact Or.inr ⟨ps, Or.inl rfl, hh⟩
        · exact Or.inl hh
        · exact Or.inr ⟨q, Or.inr hq, hqe⟩
      · rintro (hh | ⟨q, hq | hq, hqe⟩)
        · exact Or.inl (Or.inr hh)
        · subst hq
          exact Or.inl (Or.inl hqe)
        · exact Or.inr ⟨q, hq, hqe⟩

/-- C9: for a stored record with a pending batch, every hash listed by
getPendingSignatures is the md5 of the stored base64 signature, every pending
signature is listed under exactly that hash, and the selection test of the
verifySignatures loop body reattaches a pending signature exactly when that
same md5 hash is among the submitted hashes: the display hash and the
selection hash agree. -/
theorem C9_selection_hash_agreement (pgp : PGPAdapter) (md5 : String → String) (db : DB)
    (fingerprint keyId email : Option String) (nonce : String)
    (key : KeyRecord) (pending : PendingSigs)
    (out : List (Option String × List PublicKey.PendingSigEntry))
    (hgv : PublicKey.getVerified db (email.map (fun e => [e])) fingerprint keyId = some key)
    (hpend : key.pendingSignatures = some pending)
    (hout : PublicKey.getPendingSignatures pgp md5 db fingerprint keyId email nonce = .ok out) :
    (∀ ps ∈ pending.sigs, md5 ps.signature ∈ PublicKey.listedHashes out) ∧
    (∀ h ∈ PublicKey.listedHashes out, ∃ ps ∈ pending.sigs, h = md5 ps.signature) ∧
    (∀ ps ∈ pending.sigs, ∀ (sigs : List String) (orig : Armored) (acc : Option Armored),
      (md5 ps.signature ∈ sigs →
        PublicKey.vsStep pgp md5 sigs (some orig) acc ps =
          .ok (some (pgp.updateKey orig (pgp.addSignature orig ps)))) ∧
      (md5 ps.signature ∉ sigs →
        PublicKey.vsStep pgp md5 sigs (some orig) acc ps = .ok acc)) := by
  unfold PublicKey.getPendingSignatures at hout
  simp only [hgv, hpend] at hout
  by_cases hnn : pending.nonce ≠ nonce
  · simp [hnn] at hout
  · simp only [hnn, if_neg, ite_false] at hout
    have hiff := gps_fold_hashes pgp md5 db pending.sigs [] out hout
    refine ⟨?_, ?_, ?_⟩
    · intro ps hm
      exact (hiff (md5 ps.signature)).mpr (Or.inr ⟨ps, hm, rfl⟩)
    · intro h hh
      rcases (hiff h).mp hh with hin | hex
      · simp [PublicKey.listedHashes] at hin
      · exact hex
    · intro ps _ sigs orig acc
      constructor
      · intro hmem
        have hc : sigs.contains (md5 ps.signature) = true := by simpa using hmem
        simp only [PublicKey.vsStep, hc, if_true]
      · intro hmem
        have hc : sigs.contains (md5 ps.signature) = false := by simpa using hmem
        simp only [PublicKey.vsStep, hc, Bool.false_eq_true, if_false]

theorem C9_selection_hash_agreement_witness :
    ("h" ++ "S1") ∈ PublicKey.listedHashes
      [(some "uidA",
        [{ issuerFingerprint := "fp:" ++ "S1", created := "d", userId := none,
           hash := "h" ++ "S1" }])] :=
  (C9_selection_hash_agreement mockPGP (fun s => "h" ++ s)
      [mkRec "k1" [mkUid "a@x" true none none] (some "ORIG")
        (some { nonce := "n1",
                sigs := [{ user := { userId := some "uidA", userAttribute := none },
                           signature := "S1" }] })]
      none (some "k1") none "n1"
      (mkRec "k1" [mkUid "a@x" true none none] (some "ORIG")
        (some { nonce := "n1",
                sigs := [{ user := { userId := some "uidA", userAttribute := none },
                           signature := "S1" }] }))
      { nonce := "n1",
        sigs := [{ user := { userId := some "uidA", userAttribute := none },
                   signature := "S1" }] }
      [(some "uidA",
        [{ issuerFingerprint := "fp:" ++ "S1", created := "d", userId := none,
           hash := "h" ++ "S1" }])]
      (by decide) rfl rfl).1
    { user := { userId := some "uidA", userAttribute := none }, signature := "S1" }
    (by decide)

/-- Helper: sendNewSigsEmail cannot reject when the record carries an armored
block. -/
theorem sendNewSigsEmail_ok (pgp : PGPAdapter) (key : KeyRecord) (a : Armored)
    (h : key.publicKeyArmored = some a) :
    ∃ m2, PublicKey.sendNewSigsEmail pgp key = .ok m2 := by
  unfold PublicKey.sendNewSigsEmail
  rcases hp : key.pendingSignatures with _ | p <;> simp only [hp, h]
  · exact ⟨[], rfl⟩
  · by_cases hl : p.sigs.length ≠ 0
    · rw [if_pos hl]
      exact ⟨_, rfl⟩
    · rw [if_neg hl]
      exact ⟨[], rfl⟩

/-- C4: in put over an existing verified record whose signature diff newSigs is
non-empty, the persisted record carries a pending batch: a fresh batch with the
supplied nonce and exactly the new sigs when no batch existed, and otherwise
the old nonce with exactly the new sigs whose signature packet is not byte
equal to an already pending one appended after the old ones. -/
theorem C4_put_pending_batch (pgp : PGPAdapter) (cfg : Config) (supply : Nat → String)
    (purgeOk : Bool) (now : Int) (armored : Armored) (db : DB) (ctr : Nat)
    (r : PublicKey.PutOut) (verified : KeyRecord) (parsed : ParsedKey) (va : Armored)
    (hput : PublicKey.put pgp cfg supply purgeOk now [] armored db ctr = .ok r)
    (hparse : pgp.parseKey armored = .ok parsed)
    (hgv : PublicKey.getVerified (db.filter (fun x => !PublicKey.purgeSelector cfg now x))
      none none (some parsed.keyId) = some verified)
    (hva : verified.publicKeyArmored = some va)
    (hns : (pgp.filterKeyBySignatures
      (pgp.filterKeyByUserIds
        ((PublicKey.mergeUsers pgp verified.userIds
          (parsed.userIds.map PublicKey.parsedToUserId) parsed.publicKeyArmored).filter
            (fun u => u.verified))
        parsed.publicKeyArmored) va).2 ≠ []) :
    ∃ rec, r.db.find? (fun rr => rr.keyId == parsed.keyId) = some rec ∧
      rec.pendingSignatures = some (
        match verified.pendingSignatures with
        | none =>
          { sigs := (pgp.filterKeyBySignatures
              (pgp.filterKeyByUserIds
                ((PublicKey.mergeUsers pgp verified.userIds
                  (parsed.userIds.map PublicKey.parsedToUserId) parsed.publicKeyArmored).filter
                    (fun u => u.verified))
                parsed.publicKeyArmored) va).2,
            nonce := supply ctr }
        | some vp =>
          { nonce := vp.nonce,
            sigs := vp.sigs ++ ((pgp.filterKeyBySignatures
              (pgp.filterKeyByUserIds
                ((PublicKey.mergeUsers pgp verified.userIds
                  (parsed.userIds.map PublicKey.parsedToUserId) parsed.publicKeyArmored).filter
                    (fun u => u.verified))
                parsed.publicKeyArmored) va).2).filter (fun s =>
                  !vp.sigs.any (fun q => q.signature == s.signature)) }) := by
  cases purgeOk with
  | false =>
    unfold PublicKey.put PublicKey.purgeOldUnverified at hput
    simp [Except.bind, bind] at hput
  | true =>
    unfold PublicKey.put PublicKey.purgeOldUnverified at hput
    simp only [if_true, Except.bind, bind, hparse, List.map_nil, List.length_nil,
      ne_eq, not_true_eq_false, ite_false, if_neg, hgv, hva] at hput
    have hlen : ¬((pgp.filterKeyBySignatures
        (pgp.filterKeyByUserIds
          ((PublicKey.mergeUsers pgp verified.userIds
            (parsed.userIds.map PublicKey.parsedToUserId) parsed.publicKeyArmored).filter
              (fun u => u.verified))
          parsed.publicKeyArmored) va).2.length = 0) := by
      intro h0
      exact hns (List.length_eq_zero.mp h0)
    rw [if_pos hlen] at hput
    rcases hvp : verified.pendingSignatures with _ | vp <;> rw [hvp] at hput <;>
        split at hput <;> cases hput <;>
      (simp only [PublicKey.persistKey]
       rw [find?_append_none _ _ _ (fun rr hr => by
         have hm := List.mem_filter.mp hr
         simpa using hm.2)]
       exact exists_find?_singleton _ _ (by simp) _ rfl)

/-- C4 witness: concrete run of put over a stored verified record with no
pending batch; the stored record gains a batch with the fresh nonce and the
one new signature. -/
theorem C4_put_pending_batch_witness :
    ∃ rec, c4out.db.find? (fun rr => rr.keyId == c4parsed.keyId) = some rec ∧
      rec.pendingSignatures = some { nonce := "zz", sigs := [sigA] } :=
  C4_put_pending_batch mockPGPSigs ⟨14, false, fun _ => false⟩ (fun _ => "zz") true 100 "ARM"
    c4db 0 c4out
    (mkRec "aabbccddeeff0011" [mkUid "alice@example.org" true none none] (some "PREV") none)
    c4parsed "PREV" rfl rfl rfl rfl (fun h => List.noConfusion h)

/-- C5 (amended): the lazy purge failure at the start of put is not swallowed:
a rejected storage remove makes put itself reject with the same error; and the
successful purge drops exactly the stored records with no verified user ID
uploaded before the purge horizon. -/
theorem C5_purge_propagation_and_selector (pgp : PGPAdapter) (cfg : Config)
    (supply : Nat → String) (now : Int) (emails : List String) (armored : Armored)
    (db : DB) (ctr : Nat) :
    PublicKey.put pgp cfg supply false now emails armored db ctr =
      .error ⟨500, "storage remove rejected"⟩ ∧
    ∃ db1, PublicKey.purgeOldUnverified cfg now true db = .ok db1 ∧
      ∀ r, r ∈ db1 ↔ r ∈ db ∧
        ¬((∀ u ∈ r.userIds, u.verified = false) ∧
          r.uploaded < now - (cfg.purgeTimeInDays : Int)) := by
  refine ⟨rfl, _, rfl, fun r => ?_⟩
  rw [List.mem_filter]
  refine and_congr_right fun _ => ?_
  rw [Bool.not_eq_true']
  rw [show (PublicKey.purgeSelector cfg now r = false) ↔
      ¬(PublicKey.purgeSelector cfg now r = true) from by simp]
  apply not_congr
  unfold PublicKey.purgeSelector
  simp [List.any_eq_true]

/-- C5 counterexample: a concrete put call where the purge rejection surfaces
as the result of put, while the same call with a resolving purge succeeds: the
failure is not swallowed and the outcome differs. -/
theorem C5_purge_failure_not_swallowed :
    PublicKey.put mockPGP ⟨14, false, fun _ => false⟩ (fun _ => "zz") false 100 [] "ARM" [] 0 =
      .error ⟨500, "storage remove rejected"⟩ ∧
    ∃ out, PublicKey.put mockPGP ⟨14, false, fun _ => false⟩ (fun _ => "zz") true 100 [] "ARM"
      [] 0 = .ok out :=
  ⟨rfl, _, rfl⟩

/-- Characterization of the challenge loop on a list where every user ID is
flagged notify: every user ID gets a supply nonce, emails are preserved in
order, one verifyKey mail per user ID is produced in order, and the supply
advances by the length of the list. -/
theorem sendVerifyLoop_char (supply : Nat → String) (keyId : String) :
    ∀ (uids : List UserIdRec) (ctr : Nat), (∀ u ∈ uids, u.notify = some true) →
      ((PublicKey.sendVerifyEmailLoop supply keyId uids ctr).1.map (fun u => u.email) =
        uids.map (fun u => u.email)) ∧
      (∀ u ∈ (PublicKey.sendVerifyEmailLoop supply keyId uids ctr).1,
        ∃ u0, u0 ∈ uids ∧ ∃ j, u = { u0 with nonce := some (supply j) }) ∧
      ((PublicKey.sendVerifyEmailLoop supply keyId uids ctr).2.1.map
          (fun m => (m.template, m.email, m.keyId)) =
        uids.map (fun u => ("verifyKey", u.email, keyId))) ∧
      (PublicKey.sendVerifyEmailLoop supply keyId uids ctr).2.2 = ctr + uids.length := by
  intro uids
  induction uids with
  | nil => intro ctr h; simp [PublicKey.sendVerifyEmailLoop]
  | cons u rest ih =>
    intro ctr h
    have hu : u.notify = some true := h u (by simp)
    obtain ⟨ih1, ih2, ih3, ih4⟩ := ih (ctr + 1) (fun v hv => h v (by simp [hv]))
    refine ⟨?_, ?_, ?_, ?_⟩
    · simp [PublicKey.sendVerifyEmailLoop, hu, ih1]
    · intro v hv
      simp only [PublicKey.sendVerifyEmailLoop, hu] at hv
      simp only [beq_self_eq_true, if_true, List.mem_cons] at hv
      rcases hv with hv | hv
      · exact ⟨u, by simp, ctr, by rw [hu]; exact hv⟩
      · obtain ⟨u0, hu0, j, hj⟩ := ih2 v hv
        exact ⟨u0, by simp [hu0], j, hj⟩
    · simp [PublicKey.sendVerifyEmailLoop, hu, ih3]
    · simp [PublicKey.sendVerifyEmailLoop, hu, ih4]
      omega

/-- The strip of transient fields preserves the emails in order. -/
theorem strip_map_email (l : List UserIdRec) :
    (PublicKey.stripStatusNotify l).map (fun u => u.email) = l.map (fun u => u.email) := by
  simp only [PublicKey.stripStatusNotify, List.map_map]
  rfl

/-- Attaching shadow blocks preserves the emails in order. -/
theorem addKeyArmored_map_email (pgp : PGPAdapter) (l : List UserIdRec) (a : Armored) :
    (PublicKey.addKeyArmored pgp l a).map (fun u => u.email) = l.map (fun u => u.email) := by
  simp only [PublicKey.addKeyArmored, List.map_map]
  rfl

/-- Attaching shadow blocks preserves the mail triples in order. -/
theorem addKeyArmored_map_mail (pgp : PGPAdapter) (l : List UserIdRec) (a : Armored)
    (kid : String) :
    (PublicKey.addKeyArmored pgp l a).map (fun u => (("verifyKey" : String), u.email, kid)) =
      l.map (fun u => ("verifyKey", u.email, kid)) := by
  simp only [PublicKey.addKeyArmored, List.map_map]
  rfl

/-- A get by email alone finds nothing when no stored record carries that email
verified. -/
theorem get_email_404 (db : DB) (e : String)
    (h : ∀ rec0 ∈ db, ∀ u ∈ rec0.userIds, u.email = normalizeEmail e → u.verified = false) :
    PublicKey.get db none none (some e) = .error ⟨404, "key_not_found"⟩ := by
  simp only [PublicKey.get, PublicKey.getVerified]
  have hn : List.find? (PublicKey.getVerifiedMatch ((some e).map (fun x => [x])) none none)
      db = none := by
    rw [List.find?_eq_none]
    intro rec0 hmem
    unfold PublicKey.getVerifiedMatch
    simp only [Option.map_some', List.any_cons, List.any_nil, Bool.or_false, Bool.false_or,
      List.any_eq_true, Bool.and_eq_true, beq_iff_eq]
    rintro ⟨u, hu, hue, huv⟩
    exact absurd (h rec0 hmem u hu hue) (by simp [huv])
  rw [hn]

/-- C7: fresh upload with user origin restriction off: only user IDs with
status valid are retained, and put rejects with 400 when none remain;
otherwise the persisted record has no record level armored block, every
retained user ID is unverified with a supply nonce of 32 hex characters and a
shadow armored block filtered to that user, one verifyKey mail is sent per
retained user ID in order, and get by email finds nothing as long as no other
stored record carries that email verified. -/
theorem C7_put_fresh_upload (pgp : PGPAdapter) (cfg : Config) (supply : Nat → String)
    (now : Int) (armored : Armored) (db : DB) (ctr : Nat) (parsed : ParsedKey)
    (hparse : pgp.parseKey armored = .ok parsed)
    (hgv : PublicKey.getVerified (db.filter (fun x => !PublicKey.purgeSelector cfg now x))
      none none (some parsed.keyId) = none)
    (hro : cfg.restrictUserOrigin = false)
    (hhex : ∀ j, PublicKey.isHex32 (supply j) = true) :
    (validUids parsed = [] →
      PublicKey.put pgp cfg supply true now [] armored db ctr =
        .error ⟨400, "Invalid PGP key: no valid user IDs found"⟩) ∧
    (∀ r, PublicKey.put pgp cfg supply true now [] armored db ctr = .ok r →
      ∃ rec, r.db.find? (fun rr => rr.keyId == parsed.keyId) = some rec ∧
        rec.publicKeyArmored = none ∧
        rec.userIds.map (fun u => u.email) = (validUids parsed).map (fun u => u.email) ∧
        (∀ u ∈ rec.userIds, u.verified = false ∧
          (∃ n, u.nonce = some n ∧ PublicKey.isHex32 n = true) ∧
          (∃ v, v ∈ validUids parsed ∧ u.publicKeyArmored =
            some (pgp.filterKeyByUserIds [v] parsed.publicKeyArmored))) ∧
        r.mails.map (fun m => (m.template, m.email, m.keyId)) =
          (validUids parsed).map (fun u => ("verifyKey", u.email, parsed.keyId)) ∧
        (∀ e, (∀ rec0 ∈ db, ∀ u ∈ rec0.userIds,
            u.email = normalizeEmail e → u.verified = false) →
          PublicKey.get r.db none none (some e) = .error ⟨404, "key_not_found"⟩)) := by
  constructor
  · intro hval
    unfold PublicKey.put PublicKey.purgeOldUnverified
    simp only [if_true, Except.bind, bind, hparse, List.map_nil, List.length_nil,
      ne_eq, not_true_eq_false, ite_false, if_neg, hgv]
    have : (validUids parsed).length = 0 := by rw [hval]; rfl
    unfold validUids at this
    rw [if_pos this]
  · intro r hput
    unfold PublicKey.put PublicKey.purgeOldUnverified at hput
    simp only [if_true, Except.bind, bind, hparse, List.map_nil, List.length_nil,
      ne_eq, not_true_eq_false, ite_false, if_neg, hgv, hro] at hput
    simp only [Bool.false_eq_true, if_false] at hput
    by_cases hlen0 : (List.filter (fun uid => uid.status == some KEY_STATUS_VALID)
        (List.map PublicKey.parsedToUserId parsed.userIds)).length = 0
    · rw [if_pos hlen0] at hput
      cases hput
    · rw [if_neg hlen0] at hput
      cases hput
      simp only [validUids]
      obtain ⟨hc1, hc2, hc3, hc4⟩ := sendVerifyLoop_char supply parsed.keyId
        (PublicKey.addKeyArmored pgp
          (List.filter (fun uid => uid.status == some KEY_STATUS_VALID)
            (List.map PublicKey.parsedToUserId parsed.userIds))
          parsed.publicKeyArmored) ctr
        (by
          intro u hu
          simp only [PublicKey.addKeyArmored, List.mem_map] at hu
          obtain ⟨v, hv, rfl⟩ := hu
          rfl)
      have hU : ∀ u ∈ PublicKey.stripStatusNotify
          (PublicKey.sendVerifyEmailLoop supply parsed.keyId
            (PublicKey.addKeyArmored pgp
              (List.filter (fun uid => uid.status == some KEY_STATUS_VALID)
                (List.map PublicKey.parsedToUserId parsed.userIds))
              parsed.publicKeyArmored) ctr).1,
          u.verified = false ∧
          (∃ n, u.nonce = some n ∧ PublicKey.isHex32 n = true) ∧
          (∃ v, v ∈ (List.filter (fun uid => uid.status == some KEY_STATUS_VALID)
              (List.map PublicKey.parsedToUserId parsed.userIds)) ∧
            u.publicKeyArmored =
              some (pgp.filterKeyByUserIds [v] parsed.publicKeyArmored)) := by
        intro u hu
        simp only [PublicKey.stripStatusNotify, List.mem_map] at hu
        obtain ⟨w, hw, rfl⟩ := hu
        obtain ⟨u0, hu0, j, rfl⟩ := hc2 w hw
        simp only [PublicKey.addKeyArmored, List.mem_map] at hu0
        obtain ⟨v, hv, rfl⟩ := hu0
        have hvm := List.mem_filter.mp hv
        obtain ⟨p, hp, rfl⟩ := List.mem_map.mp hvm.1
        exact ⟨rfl, ⟨supply j, rfl, hhex j⟩, ⟨PublicKey.parsedToUserId p, hv, rfl⟩⟩
      simp only [PublicKey.persistKey]
      rw [find?_append_none _ _ _ (fun rr hr => by
        have hm := List.mem_filter.mp hr
        simpa using hm.2)]
      refine exists_find?_singleton _ _ (by simp) _ ⟨rfl, ?_, hU, ?_, ?_⟩
      · simp only [strip_map_email, hc1, addKeyArmored_map_email]
      · simp only [hc3, addKeyArmored_map_mail]
      · intro e he
        apply get_email_404
        intro rec0 hmem u hu hue
        rw [List.mem_append] at hmem
        rcases hmem with hmem | hmem
        · have h1 := (List.mem_filter.mp hmem).1
          have h2 := (List.mem_filter.mp h1).1
          exact he rec0 h2 u hu hue
        · rw [List.mem_singleton] at hmem
          subst hmem
          exact (hU u hu).1

/-- C7 witness: concrete fresh upload on an empty collection with the mock
adapter; the single valid user ID is retained unverified with a hex nonce and
shadow block, one verifyKey mail goes out, and get by the email misses. -/
theorem C7_put_fresh_upload_witness :
    (validUids c4parsed = [] →
      PublicKey.put mockPGP c7cfg c7supply true 100 [] "ARM" [] 0 =
        .error ⟨400, "Invalid PGP key: no valid user IDs found"⟩) ∧
    (∀ r, PublicKey.put mockPGP c7cfg c7supply true 100 [] "ARM" [] 0 = .ok r →
      ∃ rec, r.db.find? (fun rr => rr.keyId == c4parsed.keyId) = some rec ∧
        rec.publicKeyArmored = none ∧
        rec.userIds.map (fun u => u.email) = (validUids c4parsed).map (fun u => u.email) ∧
        (∀ u ∈ rec.userIds, u.verified = false ∧
          (∃ n, u.nonce = some n ∧ PublicKey.isHex32 n = true) ∧
          (∃ v, v ∈ validUids c4parsed ∧ u.publicKeyArmored =
            some (mockPGP.filterKeyByUserIds [v] c4parsed.publicKeyArmored))) ∧
        r.mails.map (fun m => (m.template, m.email, m.keyId)) =
          (validUids c4parsed).map (fun u => ("verifyKey", u.email, c4parsed.keyId)) ∧
        (∀ e, (∀ rec0 ∈ ([] : DB), ∀ u ∈ rec0.userIds,
            u.email = normalizeEmail e → u.verified = false) →
          PublicKey.get r.db none none (some e) = .error ⟨404, "key_not_found"⟩)) :=
  C7_put_fresh_upload mockPGP c7cfg c7supply 100 "ARM" [] 0 c4parsed rfl rfl rfl
    (fun j => show PublicKey.isHex32 "0123456789abcdef0123456789abcdef" = true by decide)

/-- An unverified user ID is clean. -/
theorem uidClean_unverified (u : UserIdRec) (h : u.verified = false) :
    PublicKey.uidClean u = true := by
  simp [PublicKey.uidClean, h]

/-- Every user ID of every record of a clean collection is clean. -/
theorem dbClean_mem (db : DB) (h : PublicKey.dbClean db = true) (r : KeyRecord)
    (hr : r ∈ db) (u : UserIdRec) (hu : u ∈ r.userIds) : PublicKey.uidClean u = true := by
  rw [PublicKey.dbClean, List.all_eq_true] at h
  exact List.all_eq_true.mp (h r hr) u hu

/-- Pointwise certificate of collection cleanliness. -/
theorem dbClean_of_all (db : DB)
    (h : ∀ r ∈ db, ∀ u ∈ r.userIds, PublicKey.uidClean u = true) :
    PublicKey.dbClean db = true := by
  rw [PublicKey.dbClean, List.all_eq_true]
  intro r hr
  rw [List.all_eq_true]
  exact h r hr

/-- Removal of records keeps the collection clean. -/
theorem dbClean_filter (q : KeyRecord → Bool) (db : DB) (h : PublicKey.dbClean db = true) :
    PublicKey.dbClean (db.filter q) = true :=
  dbClean_of_all _ (fun r hr u hu => dbClean_mem db h r (List.mem_filter.mp hr).1 u hu)

/-- Stripping the transient fields keeps a user ID clean. -/
theorem uidClean_strip (u : UserIdRec) (h : PublicKey.uidClean u = true) :
    PublicKey.uidClean { u with status := none, notify := none } = true := by
  rw [PublicKey.uidClean] at h ⊢
  by_cases hv : u.verified = false
  · simp [hv]
  · have hvt : u.verified = true := by simpa using hv
    simp only [hvt, Bool.not_true, Bool.false_or, Bool.and_eq_true] at h ⊢
    exact ⟨h.1, by decide⟩

/-- A notify flagged clean user ID is unverified. -/
theorem uidClean_notify_unverified (u : UserIdRec) (h : PublicKey.uidClean u = true)
    (hn : u.notify = some true) : u.verified = false := by
  rw [PublicKey.uidClean, Bool.or_eq_true] at h
  rcases h with h | h
  · simpa using h
  · simp [hn] at h

/-- The challenge loop keeps every user ID clean: it patches a nonce only onto
notify flagged user IDs, which are unverified in a clean list. -/
theorem loop_clean (supply : Nat → String) (k : String) :
    ∀ (uids : List UserIdRec) (c : Nat), (∀ u ∈ uids, PublicKey.uidClean u = true) →
      ∀ u ∈ (PublicKey.sendVerifyEmailLoop supply k uids c).1, PublicKey.uidClean u = true := by
  intro uids
  induction uids with
  | nil => intro c h u hu; simp [PublicKey.sendVerifyEmailLoop] at hu
  | cons a l ih =>
    intro c h u hu
    by_cases hn : (a.notify == some true) = true
    · simp only [PublicKey.sendVerifyEmailLoop, hn, if_true, List.mem_cons] at hu
      rcases hu with rfl | hu
      · exact uidClean_unverified _
          (uidClean_notify_unverified a (h a (by simp)) (beq_iff_eq.mp hn))
      · exact ih (c + 1) (fun v hv => h v (by simp [hv])) u hu
    · have hn1 : (a.notify == some true) = false := by simpa using hn
      simp only [PublicKey.sendVerifyEmailLoop, hn1, Bool.false_eq_true, if_false,
        List.mem_cons] at hu
      rcases hu with rfl | hu
      · exact h u (by simp)
      · exact ih c (fun v hv => h v (by simp [hv])) u hu

/-- The organisation challenge loop keeps every user ID clean. -/
theorem orgLoop_clean (cfg : Config) (supply : Nat → String) (k : String) :
    ∀ (uids : List UserIdRec) (c : Nat), (∀ u ∈ uids, PublicKey.uidClean u = true) →
      ∀ u ∈ (PublicKey.sendVerifyOrganisationEmailLoop cfg supply k uids c).1,
        PublicKey.uidClean u = true := by
  intro uids
  induction uids with
  | nil => intro c h u hu; simp [PublicKey.sendVerifyOrganisationEmailLoop] at hu
  | cons a l ih =>
    intro c h u hu
    by_cases hn : (a.notify == some true && cfg.restriction a.email) = true
    · simp only [PublicKey.sendVerifyOrganisationEmailLoop, hn, if_true, List.mem_cons] at hu
      rcases hu with rfl | hu
      · have hn1 : (a.notify == some true) = true := by
          simp only [Bool.and_eq_true] at hn
          exact hn.1
        exact uidClean_unverified _
          (uidClean_notify_unverified a (h a (by simp)) (beq_iff_eq.mp hn1))
      · exact ih (c + 1) (fun v hv => h v (by simp [hv])) u hu
    · have hn1 : (a.notify == some true && cfg.restriction a.email) = false := by
        simpa using hn
      simp only [PublicKey.sendVerifyOrganisationEmailLoop, hn1, Bool.false_eq_true, if_false,
        List.mem_cons] at hu
      rcases hu with rfl | hu
      · exact h u (by simp)
      · exact ih c (fun v hv => h v (by simp [hv])) u hu

/-- Stripping the transient fields keeps a list of user IDs clean. -/
theorem strip_clean (uids : List UserIdRec) (h : ∀ u ∈ uids, PublicKey.uidClean u = true) :
    ∀ u ∈ PublicKey.stripStatusNotify uids, PublicKey.uidClean u = true := by
  intro u hu
  obtain ⟨w, hw, rfl⟩ := List.mem_map.mp hu
  exact uidClean_strip w (h w hw)

/-- The organisation conditional strip keeps a list of user IDs clean. -/
theorem stripOrg_clean (cfg : Config) (uids : List UserIdRec)
    (h : ∀ u ∈ uids, PublicKey.uidClean u = true) :
    ∀ u ∈ PublicKey.stripStatusNotifyOrganisation cfg uids, PublicKey.uidClean u = true := by
  intro u hu
  obtain ⟨w, hw, rfl⟩ := List.mem_map.mp hu
  by_cases hr : cfg.restriction w.email = true
  · simp only [PublicKey.stripStatusNotifyOrganisation] at *
    rw [if_pos hr]
    exact uidClean_strip w (h w hw)
  · simp only [PublicKey.stripStatusNotifyOrganisation] at *
    rw [if_neg hr]
    exact h w hw

/-- Attaching shadow blocks to an all unverified list keeps it clean (and
indeed every element is unverified). -/
theorem addKeyArmored_unverified (pgp : PGPAdapter) (l : List UserIdRec) (a : Armored)
    (h : ∀ u ∈ l, u.verified = false) :
    ∀ u ∈ PublicKey.addKeyArmored pgp l a, u.verified = false := by
  intro u hu
  obtain ⟨w, hw, rfl⟩ := List.mem_map.mp hu
  exact h w hw

/-- The user merge keeps every user ID clean when the stored users are clean
and the submitted users are unverified. -/
theorem mergeUsers_clean (pgp : PGPAdapter) (existing newUsers : List UserIdRec) (a : Armored)
    (hex : ∀ u ∈ existing, PublicKey.uidClean u = true)
    (hnew : ∀ u ∈ newUsers, u.verified = false) :
    ∀ u ∈ PublicKey.mergeUsers pgp existing newUsers a, PublicKey.uidClean u = true := by
  intro u hu
  simp only [PublicKey.mergeUsers, List.mem_append] at hu
  rcases hu with (hu | hu) | hu
  · exact uidClean_unverified u
      (addKeyArmored_unverified pgp _ a
        (fun v hv => hnew v (List.mem_filter.mp hv).1) u hu)
  · exact hex u (List.mem_filter.mp hu).1
  · exact hex u (List.mem_filter.mp hu).1

/-- The positional verified patch keeps a clean list of user IDs clean when no
user ID of the list carries a live notify flag. -/
theorem updateFirstUid_patch_clean (p : UserIdRec → Bool) :
    ∀ uids : List UserIdRec,
      (∀ u ∈ uids, PublicKey.uidClean u = true ∧ u.notify ≠ some true) →
      ∀ w ∈ updateFirstUid p
        (fun u => { u with verified := true, nonce := none, publicKeyArmored := none }) uids,
        PublicKey.uidClean w = true := by
  intro uids
  induction uids with
  | nil => intro h w hw; simp [updateFirstUid] at hw
  | cons a l ih =>
    intro h w hw
    by_cases hp : p a = true
    · simp only [updateFirstUid, hp, if_true, List.mem_cons] at hw
      rcases hw with rfl | hw
      · have hn := (h a (by simp)).2
        simp [PublicKey.uidClean, bne]
        intro hcon
        exact absurd hcon hn
      · exact (h w (by simp [hw])).1
    · have hp1 : p a = false := by simpa using hp
      simp only [updateFirstUid, hp1, Bool.false_eq_true, if_false, List.mem_cons] at hw
      rcases hw with rfl | hw
      · exact (h w (by simp)).1
      · exact ih (fun v hv => h v (by simp [hv])) w hw

/-- A first-match record update keeps the collection clean when the patch of
any matching stored record has clean user IDs. -/
theorem dbClean_updateFirst (p : KeyRecord → Bool) (f : KeyRecord → KeyRecord) :
    ∀ db : DB, PublicKey.dbClean db = true →
      (∀ r ∈ db, p r = true → ∀ u ∈ (f r).userIds, PublicKey.uidClean u = true) →
      PublicKey.dbClean (updateFirst p f db) = true := by
  intro db
  induction db with
  | nil => intro h hf; exact h
  | cons a l ih =>
    intro h hf
    have ha : ∀ u ∈ a.userIds, PublicKey.uidClean u = true :=
      fun u hu => dbClean_mem _ h a (by simp) u hu
    have hl : PublicKey.dbClean l = true :=
      dbClean_of_all _ (fun r hr u hu => dbClean_mem _ h r (by simp [hr]) u hu)
    by_cases hp : p a = true
    · simp only [updateFirst, hp, if_true]
      refine dbClean_of_all _ ?_
      intro r hr u hu
      rcases List.mem_cons.mp hr with rfl | hr
      · exact hf a (by simp) hp u hu
      · exact dbClean_mem _ hl r hr u hu
    · have hp1 : p a = false := by simpa using hp
      simp only [updateFirst, hp1, Bool.false_eq_true, if_false]
      refine dbClean_of_all _ ?_
      intro r hr u hu
      rcases List.mem_cons.mp hr with rfl | hr
      · exact ha u hu
      · exact dbClean_mem _ (ih hl (fun r1 hr1 hp1 => hf r1 (by simp [hr1]) hp1)) r hr u hu

/-- Every stored user ID after the strip carries no notify flag. -/
theorem strip_notify_none (l : List UserIdRec) :
    ∀ u ∈ PublicKey.stripStatusNotify l, u.notify = none := by
  intro u hu
  obtain ⟨w, hw, rfl⟩ := List.mem_map.mp hu
  rfl

/-- The persist of a record with clean user IDs keeps the collection clean. -/
theorem dbClean_persistKey (db : DB) (key : KeyRecord)
    (hdb : PublicKey.dbClean db = true)
    (hk : ∀ u ∈ key.userIds, PublicKey.uidClean u = true) :
    PublicKey.dbClean (PublicKey.persistKey db key) = true := by
  refine dbClean_of_all _ ?_
  intro r hr u hu
  rcases List.mem_append.mp hr with hr | hr
  · exact dbClean_mem db hdb r (List.mem_filter.mp hr).1 u hu
  · rw [List.mem_singleton] at hr
    subst hr
    exact strip_clean _ hk u hu

/-- The organisation persist of a record with clean user IDs keeps the
collection clean. -/
theorem dbClean_persistKeyOrganisation (cfg : Config) (db : DB) (key : KeyRecord)
    (hdb : PublicKey.dbClean db = true)
    (hk : ∀ u ∈ key.userIds, PublicKey.uidClean u = true) :
    PublicKey.dbClean (PublicKey.persistKeyOrganisation cfg db key) = true := by
  refine dbClean_of_all _ ?_
  intro r hr u hu
  rcases List.mem_append.mp hr with hr | hr
  · exact dbClean_mem db hdb r (List.mem_filter.mp hr).1 u hu
  · rw [List.mem_singleton] at hr
    subst hr
    exact stripOrg_clean cfg _ hk u hu

/-- C3 (amended): the strengthened cleanliness invariant (every verified user
ID has no nonce, no shadow block and no live notify flag) is preserved by put,
verify, verifySignatures and verifyRemove; requestRemove is excluded, since it
nonces verified user IDs. -/
theorem C3_clean_invariant_preserved (pgp : PGPAdapter) (cfg : Config)
    (supply : Nat → String) (md5 : String → String) (purgeOk : Bool) (now : Int)
    (emails : List String) (armored : Armored) (keyId nonce : String) (sigs : List String)
    (db : DB) (ctr : Nat) (hdb : PublicKey.dbClean db = true) :
    (∀ r, PublicKey.put pgp cfg supply purgeOk now emails armored db ctr = .ok r →
      PublicKey.dbClean r.db = true) ∧
    (∀ r, PublicKey.verify pgp supply keyId nonce db ctr = .ok r →
      PublicKey.dbClean r.db = true) ∧
    (∀ r, PublicKey.verifySignatures pgp md5 keyId nonce sigs db = .ok r →
      PublicKey.dbClean r.db = true) ∧
    (∀ r, PublicKey.verifyRemove pgp keyId nonce db = .ok r →
      PublicKey.dbClean r.db = true) := by
  refine ⟨?_, ?_, ?_, ?_⟩
  · intro r hput
    cases purgeOk with
    | false =>
      unfold PublicKey.put PublicKey.purgeOldUnverified at hput
      simp [Except.bind, bind] at hput
    | true =>
      unfold PublicKey.put PublicKey.purgeOldUnverified at hput
      simp only [if_true, Except.bind, bind] at hput
      have hdbF : PublicKey.dbClean
          (db.filter (fun x => !PublicKey.purgeSelector cfg now x)) = true :=
        dbClean_filter _ db hdb
      split at hput
      · cases hput
      · rename_i parsed hparse
        split at hput
        · split at hput
          · cases hput
          · have hUnv : ∀ u ∈ List.filter
                (fun uid => (List.map normalizeEmail emails).contains uid.email)
                (List.map PublicKey.parsedToUserId parsed.userIds), u.verified = false := by
              intro u hu
              obtain ⟨p, hp, rfl⟩ := List.mem_map.mp (List.mem_filter.mp hu).1
              rfl
            split at hput
            · rename_i verified hgv
              have hvClean : ∀ u ∈ verified.userIds, PublicKey.uidClean u = true :=
                fun u hu => dbClean_mem _ hdbF verified (List.mem_of_find?_eq_some hgv) u hu
              repeat
                first
                  | (cases hput
                     exact dbClean_persistKey _ _ hdbF
                       (loop_clean _ _ _ _ (mergeUsers_clean _ _ _ _ hvClean hUnv)))
                  | cases hput
                  | split at hput
            · repeat
                first
                  | (cases hput
                     exact dbClean_persistKey _ _ hdbF
                       (loop_clean _ _ _ _ (fun u hu => uidClean_unverified u
                         (addKeyArmored_unverified _ _ _
                           (fun v hv => hUnv v (List.mem_filter.mp hv).1) u hu))))
                  | (cases hput
                     exact dbClean_persistKeyOrganisation _ _ _ hdbF
                       (orgLoop_clean _ _ _ _ _ (fun u hu => uidClean_unverified u
                         (addKeyArmored_unverified _ _ _
                           (fun v hv => hUnv v (List.mem_filter.mp hv).1) u hu))))
                  | cases hput
                  | split at hput
        · have hUnv : ∀ u ∈ List.map PublicKey.parsedToUserId parsed.userIds,
              u.verified = false := by
            intro u hu
            obtain ⟨p, hp, rfl⟩ := List.mem_map.mp hu
            rfl
          split at hput
          · rename_i verified hgv
            have hvClean : ∀ u ∈ verified.userIds, PublicKey.uidClean u = true :=
              fun u hu => dbClean_mem _ hdbF verified (List.mem_of_find?_eq_some hgv) u hu
            repeat
              first
                | (cases hput
                   exact dbClean_persistKey _ _ hdbF
                     (loop_clean _ _ _ _ (mergeUsers_clean _ _ _ _ hvClean hUnv)))
                | cases hput
                | split at hput
          · repeat
              first
                | (cases hput
                   exact dbClean_persistKey _ _ hdbF
                     (loop_clean _ _ _ _ (fun u hu => uidClean_unverified u
                       (addKeyArmored_unverified _ _ _
                         (fun v hv => hUnv v (List.mem_filter.mp hv).1) u hu))))
                | (cases hput
                   exact dbClean_persistKeyOrganisation _ _ _ hdbF
                     (orgLoop_clean _ _ _ _ _ (fun u hu => uidClean_unverified u
                       (addKeyArmored_unverified _ _ _
                         (fun v hv => hUnv v (List.mem_filter.mp hv).1) u hu))))
                | cases hput
                | split at hput
  · intro r hput
    unfold PublicKey.verify at hput
    simp only [Except.bind, bind] at hput
    split at hput
    · cases hput
    · rename_i key heq
      have hkmem : key ∈ db := List.mem_of_find?_eq_some heq
      have hkpred := List.find?_some heq
      have hkid : key.keyId = keyId := by
        unfold PublicKey.verifyQueryMatch at hkpred
        simp only [Bool.and_eq_true] at hkpred
        exact beq_iff_eq.mp hkpred.1
      have hkClean : ∀ u ∈ key.userIds, PublicKey.uidClean u = true :=
        fun u hu => dbClean_mem db hdb key hkmem u hu
      have hsvClean : ∀ u ∈ (PublicKey.sendVerifyEmailLoop supply key.keyId
          key.userIds ctr).1, PublicKey.uidClean u = true :=
        loop_clean supply key.keyId key.userIds ctr hkClean
      repeat
        first
          | (cases hput
             refine dbClean_updateFirst _ _ _
               (dbClean_filter _ _ (dbClean_persistKey db _ hdb hsvClean)) ?_
             intro r0 hr0 hp u hu
             refine updateFirstUid_patch_clean _ r0.userIds ?_ u hu
             intro w hw
             have hr1 := (List.mem_filter.mp hr0).1
             rcases List.mem_append.mp hr1 with hpre | happ
             · exfalso
               have hne : (r0.keyId == key.keyId) = false := by
                 simpa using (List.mem_filter.mp hpre).2
               have hpk : (r0.keyId == keyId) = true := by
                 unfold PublicKey.verifyQueryMatch at hp
                 simp only [Bool.and_eq_true] at hp
                 exact hp.1
               rw [hkid, hpk] at hne
               cases hne
             · rw [List.mem_singleton] at happ
               subst happ
               constructor
               · exact strip_clean _ hsvClean w hw
               · have hwn : w.notify = none := strip_notify_none _ w hw
                 rw [hwn]
                 simp)
          | cases hput
          | split at hput
  · intro r hput
    unfold PublicKey.verifySignatures at hput
    simp only [Except.bind, bind] at hput
    split at hput
    · cases hput
    · rename_i key heq
      split at hput
      · split at hput
        · cases hput
        · split at hput
          · cases hput
            refine dbClean_updateFirst _ _ db hdb ?_
            intro r0 hr0 _ u hu
            exact dbClean_mem db hdb r0 hr0 u hu
          · cases hput
      · cases hput
  · intro r hput
    unfold PublicKey.verifyRemove at hput
    simp only [Except.bind, bind] at hput
    split at hput
    · cases hput
    · rename_i flagged heq
      have hflag : flagged ∈ db := List.mem_of_find?_eq_some heq
      split at hput
      · split at hput
        · cases hput
          exact dbClean_filter _ db hdb
        · cases hput
      · split at hput
        · cases hput
        · rename_i rmUserId heq2
          repeat
            first
              | (cases hput
                 refine dbClean_updateFirst _ _ db hdb ?_
                 intro r0 hr0 _ u hu
                 exact dbClean_mem db hdb flagged hflag u (List.eraseIdx_subset _ _ hu))
              | cases hput
              | split at hput

/-- C3 counterexample: requestRemove on a clean record with one verified user
ID completes and leaves that verified user ID carrying a nonce, so the claimed
invariant does not survive requestRemove. -/
theorem C3_requestRemove_breaks_invariant :
    PublicKey.dbClean [mkRec "k1" [mkUid "a@x" true none none] (some "ARM") none] = true ∧
    ∃ out, PublicKey.requestRemove (fun _ => "n1") none (some "a@x")
        [mkRec "k1" [mkUid "a@x" true none none] (some "ARM") none] 0 = .ok out ∧
      out.db.any (fun r => r.userIds.any (fun u => u.verified && u.nonce != none)) = true :=
  ⟨by decide, _, rfl, by decide⟩

/-- C3 witness: the preservation theorem applied to a concrete clean
collection. -/
theorem C3_clean_invariant_preserved_witness :
    (∀ r, PublicKey.put mockPGP c7cfg (fun _ => "zz") true 100 [] "ARM"
        [mkRec "k1" [mkUid "a@x" true none none] (some "ARM") none] 0 = .ok r →
      PublicKey.dbClean r.db = true) ∧
    (∀ r, PublicKey.verify mockPGP (fun _ => "zz") "k1" "n1"
        [mkRec "k1" [mkUid "a@x" true none none] (some "ARM") none] 0 = .ok r →
      PublicKey.dbClean r.db = true) ∧
    (∀ r, PublicKey.verifySignatures mockPGP (fun s => s) "k1" "n1" []
        [mkRec "k1" [mkUid "a@x" true none none] (some "ARM") none] = .ok r →
      PublicKey.dbClean r.db = true) ∧
    (∀ r, PublicKey.verifyRemove mockPGP "k1" "n1"
        [mkRec "k1" [mkUid "a@x" true none none] (some "ARM") none] = .ok r →
      PublicKey.dbClean r.db = true) :=
  C3_clean_invariant_preserved mockPGP c7cfg (fun _ => "zz") (fun s => s) true 100 [] "ARM"
    "k1" "n1" [] [mkRec "k1" [mkUid "a@x" true none none] (some "ARM") none] 0 (by decide)
